import Mathlib

/-!
# Verification of the streaming GDU-JSON tree-to-row transducer

Shallow embedding of `src/convert_gdu.py` (the streaming implementation:
`_build_path`, `_coerce_int`, `_make_dir_frame`, `_make_file_row`,
`_dir_frame_to_row`, `stream_nodes`).

The Python generator consumes ijson events.  We model an event as an
inductive `Event`, scalar JSON values as `Scalar`, and the generator as a
step function over an explicit state.  Python's mutable `DirFrame` objects
are shared between the directory stack and the array contexts; we model
the heap by an arena (`List DirFrame`) and store arena indices on the
directory stack and in array contexts, mutating the arena in place with
`bumpAt`.  The arena keeps frames after they are popped (Python would
garbage-collect them); only indices reachable from the two stacks are ever
read, so the arena is ghost storage and the live state is the two stacks.

Paths are Python strings; since CPython `str.startswith`/`endswith` with a
one-character separator just inspect the first/last character, we model
them on `String.data` (Lean 4.14 strings are lists of characters).
-/

inductive Scalar where
  | str : String → Scalar
  | num : Int → Scalar
  | boolean : Bool → Scalar
  | null : Scalar
deriving DecidableEq, Repr

/-- ijson `basic_parse` events: `start_array`, `end_array`, `start_map`,
`end_map`, `map_key`, and the four scalar events (`string`, `number`,
`boolean`, `null`) collapsed into one carrying the value. -/
inductive Event where
  | startArray : Event
  | endArray : Event
  | startMap : Event
  | endMap : Event
  | mapKey : String → Event
  | scalar : Scalar → Event
deriving DecidableEq, Repr

/-- Strip leading and trailing whitespace, as CPython `int(str)` does
before parsing. -/
def stripWS (cs : List Char) : List Char :=
  ((cs.dropWhile Char.isWhitespace).reverse.dropWhile Char.isWhitespace).reverse

/-- Decimal digit run as accepted by CPython `int(str)`: underscores are
allowed only singly and only between digits. -/
def pyDigitsAux (acc : Nat) : List Char → Option Nat
  | [] => some acc
  | '_' :: c :: rest =>
      if c.isDigit then pyDigitsAux (acc * 10 + (c.toNat - 48)) rest else none
  | c :: rest =>
      if c.isDigit then pyDigitsAux (acc * 10 + (c.toNat - 48)) rest else none

def pyDigits : List Char → Option Nat
  | [] => none
  | '_' :: _ => none
  | c :: rest => if c.isDigit then pyDigitsAux (c.toNat - 48) rest else none

/-- CPython `int(s)` for a string `s` (ASCII decimal with optional sign and
surrounding whitespace); `none` when it raises `ValueError`. -/
def pyParseInt (s : String) : Option Int :=
  match stripWS s.data with
  | '+' :: rest => (pyDigits rest).map Int.ofNat
  | '-' :: rest => (pyDigits rest).map (fun n => -(n : Int))
  | cs => (pyDigits cs).map Int.ofNat

/-- `_coerce_int` (convert_gdu.py lines 53-59): `None` maps to 0, otherwise
`int(value)`, and any conversion failure maps to 0.  The values reaching it
are the ijson scalars: `int(number)` is the number itself (ijson yields
exact decimals; sizes in GDU exports are integers), `int(bool)` is 0 or 1,
and `int(str)` parses or fails.  Totality of this Lean function is the
"never raises" guarantee. -/
def coerce_int : Scalar → Int
  | .null => 0
  | .num n => n
  | .boolean b => if b then 1 else 0
  | .str s => (pyParseInt s).getD 0

/-- POSIX `os.path.join(a, b)`: `b` if `b` is absolute, else `a` and `b`
joined with exactly one separator inserted unless `a` is empty or already
ends with the separator. -/
def osPathJoin (a b : String) : String :=
  if b.data.head? = some '/' then b
  else if a = "" ∨ a.data.getLast? = some '/' then a ++ b
  else a ++ "/" ++ b

/-- `_build_path` (convert_gdu.py lines 43-50). -/
def _build_path (parent_path name : String) : String :=
  let current := if parent_path ≠ "" then osPathJoin parent_path name
                 else if name ≠ "" then name else "/"
  if current.data.head? = some '/' then current else "/" ++ current

/-- `DirFrame` (convert_gdu.py lines 32-40). -/
structure DirFrame where
  name : String
  path : String
  parent : String
  depth : Nat
  size : Int
  usage : Int
  item_count : Nat
deriving DecidableEq, Repr

/-- One output row of `stream_nodes`, with the fields of the parquet
schema (convert_gdu.py lines 20-29). -/
structure Row where
  path : String
  name : String
  parent : String
  depth : Nat
  size : Int
  usage : Int
  is_dir : Bool
  item_count : Nat
deriving DecidableEq, Repr

inductive ArrKind where
  | unknown : ArrKind
  | top : ArrKind
  | dir : ArrKind
deriving DecidableEq, Repr

/-- The `arr_ctx` dict `{"type": ..., "index": ..., "frame": ...}`
(convert_gdu.py line 124); `frame` holds an arena index. -/
structure ArrCtx where
  kind : ArrKind
  index : Nat
  frame : Option Nat
deriving DecidableEq, Repr

/-- The `obj_ctx` dict `{"data": {...}, "key": ...}` (line 143).  The data
dict can only ever hold the keys `name` (raw scalar), `asize` and `dsize`
(coerced on store, lines 157-160), so it is modelled by three options. -/
structure ObjCtx where
  name : Option Scalar
  asize : Option Int
  dsize : Option Int
  key : Option String
deriving DecidableEq, Repr

/-- One entry of `container_stack`. -/
inductive Container where
  | array : ArrCtx → Container
  | object : ObjCtx → Container
deriving DecidableEq, Repr

/-- Generator state: `container_stack`, `dir_stack` (arena indices, head =
top of stack) and the frame arena (the heap). -/
structure TState where
  containers : List Container
  dirStack : List Nat
  arena : List DirFrame
deriving DecidableEq, Repr

/-- Python truthiness of the accumulated `data` dict (`if data`, line 176). -/
def dataNonempty (oc : ObjCtx) : Bool :=
  oc.name.isSome || oc.asize.isSome || oc.dsize.isSome

/-- The name computation `info.get("name", "") or ""` shared by
`_make_dir_frame` (line 63): absent, `None`, the empty string and falsy
non-strings (`0`, `False`) give `""`; a truthy non-string would be passed
to `os.path.join`, raising `TypeError`, which we model as `none`. -/
def dirNameOf : Option Scalar → Option String
  | none => some ""
  | some (.str s) => some s
  | some .null => some ""
  | some (.num n) => if n = 0 then some "" else none
  | some (.boolean b) => if b then none else some ""

/-- `_make_dir_frame` (convert_gdu.py lines 62-74); `none` models the
`TypeError` raised on a truthy non-string name. -/
def _make_dir_frame (info : ObjCtx) (parent : Option DirFrame) : Option DirFrame :=
  (dirNameOf info.name).map fun name =>
    let parent_path := match parent with
      | some p => p.path
      | none => ""
    let depth := match parent with
      | some p => p.depth + 1
      | none => 0
    { name := if name = "" then "/" else name
      path := _build_path parent_path name
      parent := parent_path
      depth := depth
      size := info.asize.getD 0
      usage := info.dsize.getD 0
      item_count := 0 }

/-- Result of `_make_file_row`: a row, `None` (nameless file, skipped), or
an exception. -/
inductive FileOut where
  | skip : FileOut
  | emit : Row → FileOut
  | fail : FileOut
deriving DecidableEq, Repr

/-- `_make_file_row` (convert_gdu.py lines 77-95).  A `name` that is
absent, `None` or `""` yields `skip`.  A non-string name is modelled as
`fail`: a truthy one raises in `os.path.join`/`startswith`, and the falsy
parentless corner (`0`/`False`) would yield a row whose `name` field is
not a string, which the fixed parquet schema cannot represent. -/
def _make_file_row (info : ObjCtx) (parent : Option DirFrame) : FileOut :=
  match info.name with
  | none => .skip
  | some .null => .skip
  | some (.num _) => .fail
  | some (.boolean _) => .fail
  | some (.str s) =>
      if s = "" then .skip
      else
        let parent_path := match parent with
          | some p => p.path
          | none => ""
        let depth := match parent with
          | some p => p.depth + 1
          | none => 0
        .emit { path := _build_path parent_path s
                name := s
                parent := parent_path
                depth := depth
                size := info.asize.getD 0
                usage := info.dsize.getD 0
                is_dir := false
                item_count := 0 }

/-- `_dir_frame_to_row` (convert_gdu.py lines 98-108). -/
def _dir_frame_to_row (f : DirFrame) : Row :=
  { path := f.path
    name := if f.name = "" then "/" else f.name
    parent := f.parent
    depth := f.depth
    size := f.size
    usage := f.usage
    is_dir := true
    item_count := f.item_count }

/-- In-place `frame.item_count += k` on the arena slot `i`. -/
def bumpAt (a : List DirFrame) (i : Nat) (k : Nat) : List DirFrame :=
  match a[i]? with
  | some f => a.set i { f with item_count := f.item_count + k }
  | none => a

/-- `map_key` handling (line 147): `container_stack[-1]["ctx"]["key"] = value`.
On an empty stack Python raises `IndexError` (`none`); on an array context
it stores an entry that is never read, so that case is a no-op. -/
def doKey (s : TState) (k : String) : Option TState :=
  match s.containers with
  | [] => none
  | .object oc :: rest =>
      some ⟨Container.object { oc with key := some k } :: rest, s.dirStack, s.arena⟩
  | .array _ :: _ => some s

/-- Scalar-event handling (lines 151-166). -/
def doScalar (s : TState) (v : Scalar) : TState :=
  match s.containers with
  | [] => s
  | .object oc :: rest =>
      let oc' := match oc.key with
        | some k =>
            if k = "name" then { oc with name := some v }
            else if k = "asize" then { oc with asize := some (coerce_int v) }
            else if k = "dsize" then { oc with dsize := some (coerce_int v) }
            else oc
        | none => oc
      ⟨Container.object oc' :: rest, s.dirStack, s.arena⟩
  | .array ac :: rest =>
      let k := if ac.kind = ArrKind.unknown ∧ ac.index = 0 then ArrKind.top else ac.kind
      ⟨Container.array { ac with kind := k, index := ac.index + 1 } :: rest,
       s.dirStack, s.arena⟩

/-- `container_stack[-1]["ctx"]["index"] += 1` on the enclosing array, if
any (convert_gdu.py lines 138-139). -/
def bumpParentIndex (rest : List Container) : List Container :=
  match rest with
  | .array ac2 :: tl => Container.array { ac2 with index := ac2.index + 1 } :: tl
  | r => r

/-- `end_array` handling (lines 128-140).  Popping an empty stack raises
`IndexError`; popping an object context raises `KeyError` on
`arr_ctx["type"]` (both `none`).  If the popped array was classified `dir`
and owns a frame, that frame is emitted as a row, popped from the
directory stack when it is the top, and its count folded into the new top;
finally an enclosing array's index is advanced. -/
def doEndArray (s : TState) : Option (TState × List Row) :=
  match s.containers with
  | [] => none
  | .object _ :: _ => none
  | .array ac :: rest =>
      let rest' := bumpParentIndex rest
      if ac.kind = ArrKind.dir then
        match ac.frame with
        | some i =>
            match s.arena[i]? with
            | some f =>
                let ds' := match s.dirStack with
                  | j :: tl => if j = i then tl else j :: tl
                  | [] => []
                let ar' := match ds' with
                  | j :: _ => bumpAt s.arena j f.item_count
                  | [] => s.arena
                some (⟨rest', ds', ar'⟩, [_dir_frame_to_row f])
            | none => some (⟨rest', s.dirStack, s.arena⟩, [])
        | none => some (⟨rest', s.dirStack, s.arena⟩, [])
      else some (⟨rest', s.dirStack, s.arena⟩, [])

/-- `end_map` handling (lines 168-195).  Popping an empty stack or an
array context fails (`IndexError`/`KeyError` on `obj_ctx["data"]`).  An
enclosing still-unknown array at index 0 is classified; a `dir` array gets
a frame from its metadata head, other `dir` elements become file rows
(bumping the innermost frame), and without an enclosing array the object
becomes a parentless file row. -/
def doEndMap (s : TState) : Option (TState × List Row) :=
  match s.containers with
  | [] => none
  | .array _ :: _ => none
  | .object oc :: rest =>
      match rest with
      | .array ac :: rest2 =>
          let ac1 := if ac.kind = ArrKind.unknown ∧ ac.index = 0 then
              { ac with kind := if dataNonempty oc then ArrKind.dir else ArrKind.top }
            else ac
          if ac1.kind = ArrKind.dir then
            if ac1.index = 0 ∧ ac1.frame = none then
              match _make_dir_frame oc (s.dirStack.head?.bind fun j => s.arena[j]?) with
              | some f =>
                  let ac2 : ArrCtx := ⟨ac1.kind, ac1.index + 1, some s.arena.length⟩
                  some (⟨Container.array ac2 :: rest2,
                         s.arena.length :: s.dirStack, s.arena ++ [f]⟩, [])
              | none => none
            else
              match _make_file_row oc (s.dirStack.head?.bind fun j => s.arena[j]?) with
              | .emit r =>
                  let ar' := match s.dirStack with
                    | j :: _ => bumpAt s.arena j 1
                    | [] => s.arena
                  some (⟨Container.array { ac1 with index := ac1.index + 1 } :: rest2,
                         s.dirStack, ar'⟩, [r])
              | .skip =>
                  some (⟨Container.array { ac1 with index := ac1.index + 1 } :: rest2,
                         s.dirStack, s.arena⟩, [])
              | .fail => none
          else
            some (⟨Container.array { ac1 with index := ac1.index + 1 } :: rest2,
                   s.dirStack, s.arena⟩, [])
      | _ =>
          match _make_file_row oc none with
          | .emit r => some (⟨rest, s.dirStack, s.arena⟩, [r])
          | .skip => some (⟨rest, s.dirStack, s.arena⟩, [])
          | .fail => none

/-- One iteration of the event loop of `stream_nodes` (lines 122-195);
`none` when the Python body would raise. -/
def step (s : TState) : Event → Option (TState × List Row)
  | .startArray =>
      some (⟨Container.array ⟨ArrKind.unknown, 0, none⟩ :: s.containers,
             s.dirStack, s.arena⟩, [])
  | .startMap =>
      some (⟨Container.object ⟨none, none, none, none⟩ :: s.containers,
             s.dirStack, s.arena⟩, [])
  | .mapKey k => (doKey s k).map fun s' => (s', [])
  | .scalar v => some (doScalar s v, [])
  | .endArray => doEndArray s
  | .endMap => doEndMap s

/-- Run the loop over an event list: final state, rows yielded in order,
and whether the loop completed without raising.  When a step raises, the
rows yielded strictly before it are kept and nothing further is consumed,
matching generator semantics. -/
def runAux (s : TState) : List Event → TState × List Row × Bool
  | [] => (s, [], true)
  | e :: rest =>
      match step s e with
      | none => (s, [], false)
      | some (s1, rs) =>
          let out := runAux s1 rest
          (out.1, rs ++ out.2.1, out.2.2)

def initState : TState := ⟨[], [], []⟩

/-- The rows yielded by `stream_nodes` on an event sequence. -/
def streamRows (evs : List Event) : List Row :=
  (runAux initState evs).2.1

/-- A token source: the events it delivers, and whether it ends by
reporting a structural JSON error instead of a clean end of input. -/
structure TokenStream where
  events : List Event
  structError : Bool
deriving DecidableEq, Repr

/-- `stream_nodes` (convert_gdu.py lines 111-195) as a function of the
token source: the yielded rows and whether the generator finished without
an exception (an ijson structural error propagates out of the `for` loop
after the rows already yielded). -/
def stream_nodes (ts : TokenStream) : List Row × Bool :=
  let out := runAux initState ts.events
  (out.2.1, out.2.2 && !ts.structError)

/-!
## Input trees

The recognized node forms of the input contract (spec and source): a
directory is a JSON array whose first element is a metadata object with at
least one recognized key, followed by child entries; a file is a JSON
object with scalar fields; bare scalars may appear as array elements.
`Fields` is the literal key/value list of an object. -/

abbrev Fields := List (String × Scalar)

/-- Effect of one `map_key` event followed by the corresponding scalar
event on the object context being assembled. -/
def applyField (oc : ObjCtx) (k : String) (v : Scalar) : ObjCtx :=
  let oc1 : ObjCtx := { oc with key := some k }
  if k = "name" then { oc1 with name := some v }
  else if k = "asize" then { oc1 with asize := some (coerce_int v) }
  else if k = "dsize" then { oc1 with dsize := some (coerce_int v) }
  else oc1

def dataFold (oc : ObjCtx) (fs : Fields) : ObjCtx :=
  fs.foldl (fun o kv => applyField o kv.1 kv.2) oc

/-- The `data` dict (plus current key) accumulated while parsing an object
with fields `fs`. -/
def dataOf (fs : Fields) : ObjCtx :=
  dataFold ⟨none, none, none, none⟩ fs

def fieldEvents (fs : Fields) : List Event :=
  (fs.map fun kv => [Event.mapKey kv.1, Event.scalar kv.2]).flatten

/-- ijson events of the JSON object with fields `fs`. -/
def objEvents (fs : Fields) : List Event :=
  [Event.startMap] ++ fieldEvents fs ++ [Event.endMap]

/-- A recognized-form input node: a bare scalar, a file object, or a
directory list (metadata head plus children). -/
inductive Node where
  | sca : Scalar → Node
  | file : Fields → Node
  | dir : Fields → List Node → Node

mutual

/-- ijson events of a node. -/
def Node.events : Node → List Event
  | .sca v => [Event.scalar v]
  | .file fs => objEvents fs
  | .dir h cs => [Event.startArray] ++ objEvents h ++ Node.eventsL cs ++ [Event.endArray]

def Node.eventsL : List Node → List Event
  | [] => []
  | c :: cs => c.events ++ Node.eventsL cs

end

/-- The effective `name` value of an object is neither a number nor a
boolean (those would make the Python code raise in `os.path.join`, or
produce a row violating the fixed schema). -/
def fieldsOk (fs : Fields) : Bool :=
  match (dataOf fs).name with
  | some (.num _) => false
  | some (.boolean _) => false
  | _ => true

mutual

/-- Well-formed recognized input: every object has a usable name value and
every directory list has a valid (non-empty after key filtering) metadata
head. -/
def Node.WF : Node → Bool
  | .sca _ => true
  | .file fs => fieldsOk fs
  | .dir h cs => fieldsOk h && dataNonempty (dataOf h) && Node.WFL cs

def Node.WFL : List Node → Bool
  | [] => true
  | c :: cs => c.WF && Node.WFL cs

end

/-- A file object contributes a row exactly when its name is a non-empty
string. -/
def namedFile (fs : Fields) : Bool :=
  match (dataOf fs).name with
  | some (.str s) => decide (s ≠ "")
  | _ => false

mutual

/-- Total number of file entries in a subtree (named file objects;
directories and scalars contribute none). -/
def Node.fileCount : Node → Nat
  | .sca _ => 0
  | .file fs => if namedFile fs then 1 else 0
  | .dir _ cs => Node.fileCountL cs

def Node.fileCountL : List Node → Nat
  | [] => 0
  | c :: cs => c.fileCount + Node.fileCountL cs

end

/-- The contribution of one direct child to its parent directory's final
`item_count`: 1 for a named direct file child, the child's own final
`item_count` (= its subtree file count) for a direct subdirectory, 0
otherwise. -/
def childContrib : Node → Nat
  | .sca _ => 0
  | .file fs => if namedFile fs then 1 else 0
  | .dir _ cs => Node.fileCountL cs

/-- The directory name as `_make_dir_frame` computes it (before the root
`"/"` substitution); well-formedness rules out the failing values. -/
def dirName (fs : Fields) : String :=
  (dirNameOf (dataOf fs).name).getD ""

/-- The row of a file object with fields `fs`, whose parent path is `pp`
and whose depth is `dep` (`none` when the file is skipped). -/
def fileRowOf (fs : Fields) (pp : String) (dep : Nat) : Option Row :=
  match (dataOf fs).name with
  | some (.str s) =>
      if s = "" then none
      else some { path := _build_path pp s
                  name := s
                  parent := pp
                  depth := dep
                  size := (dataOf fs).asize.getD 0
                  usage := (dataOf fs).dsize.getD 0
                  is_dir := false
                  item_count := 0 }
  | _ => none

/-- The directory row for head `h` at parent path `pp` and depth `dep`,
carrying `ic` as its `item_count`. -/
def dirRowOf (h : Fields) (pp : String) (dep : Nat) (ic : Nat) : Row :=
  let nm := dirName h
  { path := _build_path pp nm
    name := if nm = "" then "/" else nm
    parent := pp
    depth := dep
    size := (dataOf h).asize.getD 0
    usage := (dataOf h).dsize.getD 0
    is_dir := true
    item_count := ic }

mutual

/-- Specification-side row sequence of a subtree rooted at parent path
`pp` and depth `dep`: files yield their row (if named), directories yield
all their children's rows first and then their own row, whose
`item_count` is the total file count of the subtree — strict post-order
with final counts. -/
def Node.specRows (pp : String) (dep : Nat) : Node → List Row
  | .sca _ => []
  | .file fs => (fileRowOf fs pp dep).toList
  | .dir h cs =>
      Node.specRowsL (_build_path pp (dirName h)) (dep + 1) cs ++
        [dirRowOf h pp dep (Node.fileCountL cs)]

def Node.specRowsL (pp : String) (dep : Nat) : List Node → List Row
  | [] => []
  | c :: cs => c.specRows pp dep ++ Node.specRowsL pp dep cs

end

mutual

/-- Number of directory-list structures in a subtree. -/
def Node.dirCount : Node → Nat
  | .sca _ => 0
  | .file _ => 0
  | .dir _ cs => 1 + Node.dirCountL cs

def Node.dirCountL : List Node → Nat
  | [] => 0
  | c :: cs => c.dirCount + Node.dirCountL cs

end

/-- The effective name of an object contains no path separator. -/
def nameSlashFree (fs : Fields) : Bool :=
  match (dataOf fs).name with
  | some (.str s) => s.data.all (fun c => decide (c ≠ '/'))
  | _ => true

mutual

/-- No entry name anywhere in the subtree contains the separator. -/
def Node.namesOk : Node → Bool
  | .sca _ => true
  | .file fs => nameSlashFree fs
  | .dir h cs => nameSlashFree h && Node.namesOkL cs

def Node.namesOkL : List Node → Bool
  | [] => true
  | c :: cs => c.namesOk && Node.namesOkL cs

end

/-- No two adjacent characters are both the separator. -/
def noDoubleSep : List Char → Bool
  | [] => true
  | [_] => true
  | a :: b :: rest => !(a = '/' && b = '/') && noDoubleSep (b :: rest)

/-! ## The master lemma

`NodeP v`: processing the events of a well-formed node `v` while the top
of the container stack is a `dir`-classified array owning frame `i` (the
top of the directory stack, present in the arena as `fA`) yields exactly
the specification rows of `v` rooted below `fA`, advances the array index
by one, folds `v`'s total file count into slot `i`, and extends the arena
with the (now dead) frames created inside `v`. -/

def NodeP (v : Node) : Prop :=
  Node.WF v = true →
  ∀ (ac : ArrCtx) (C : List Container) (ds : List Nat) (A : List DirFrame)
    (i : Nat) (fA : DirFrame),
    ac.kind = ArrKind.dir →
    ac.frame = some i →
    A[i]? = some fA →
    ∃ ext : List DirFrame,
      runAux ⟨Container.array ac :: C, i :: ds, A⟩ v.events =
        (⟨Container.array { ac with index := ac.index + 1 } :: C, i :: ds,
          bumpAt A i v.fileCount ++ ext⟩,
         v.specRows fA.path (fA.depth + 1), true)

/-- A well-formed absolute path: starts with the separator and never
doubles it. -/
def pathOkP (p : String) : Prop :=
  p.data.head? = some '/' ∧ noDoubleSep p.data = true

/-! ## Stack-size invariants -/

def opensOf : Event → Nat
  | .startArray => 1
  | .startMap => 1
  | _ => 0

def closesOf : Event → Nat
  | .endArray => 1
  | .endMap => 1
  | _ => 0

/-- Number of `start_array`/`start_map` events. -/
def openCount : List Event → Nat
  | [] => 0
  | e :: r => opensOf e + openCount r

/-- Number of `end_array`/`end_map` events. -/
def closeCount : List Event → Nat
  | [] => 0
  | e :: r => closesOf e + closeCount r

/-- The frames owned by the array contexts still on the container stack,
top first. -/
def liveFrames (l : List Container) : List Nat :=
  l.filterMap fun c => match c with
    | .array ac => ac.frame
    | .object _ => none

/-- An array context owning a frame is classified `dir`. -/
def framedDir (c : Container) : Prop :=
  match c with
  | .array ac => ac.frame.isSome = true → ac.kind = ArrKind.dir
  | .object _ => True

/-- State invariant of the transducer: the directory stack is exactly the
list of frames owned by the container stack (so its size is bounded by the
container stack's), frame owners are `dir`-classified, and all stacked
frame indices are live in the arena. -/
def StackInv (s : TState) : Prop :=
  s.dirStack = liveFrames s.containers ∧
  (∀ c ∈ s.containers, framedDir c) ∧
  (∀ i ∈ s.dirStack, i < s.arena.length)

/-- The condition under which an `end_map` object becomes the metadata
head of a directory array (convert_gdu.py lines 173-182): the enclosing
array is (or becomes, with this object's data) classified `dir`, is at
index 0 and owns no frame yet. -/
def isMetaHead (rest : List Container) (oc : ObjCtx) : Bool :=
  match rest with
  | Container.array ac :: _ =>
      let k := if ac.kind = ArrKind.unknown ∧ ac.index = 0 then
                 (if dataNonempty oc then ArrKind.dir else ArrKind.top)
               else ac.kind
      decide (k = ArrKind.dir) && decide (ac.index = 0) && decide (ac.frame = none)
  | _ => false

/-! ## Concrete inputs used by the claims -/

/-- Event stream of the C3 scenario input
`[1,{},[{"name":"root",...},{"name":"a.txt",...},[{"name":"sub",...},{"name":"b.txt",...}]]]`. -/
def ex1 : List Event :=
  [Event.startArray, Event.scalar (Scalar.num 1), Event.startMap, Event.endMap,
   Event.startArray,
     Event.startMap, Event.mapKey "name", Event.scalar (Scalar.str "root"),
       Event.mapKey "asize", Event.scalar (Scalar.num 100),
       Event.mapKey "dsize", Event.scalar (Scalar.num 50), Event.endMap,
     Event.startMap, Event.mapKey "name", Event.scalar (Scalar.str "a.txt"),
       Event.mapKey "asize", Event.scalar (Scalar.num 10),
       Event.mapKey "dsize", Event.scalar (Scalar.num 10), Event.endMap,
     Event.startArray,
       Event.startMap, Event.mapKey "name", Event.scalar (Scalar.str "sub"),
         Event.mapKey "asize", Event.scalar (Scalar.num 20),
         Event.mapKey "dsize", Event.scalar (Scalar.num 20), Event.endMap,
       Event.startMap, Event.mapKey "name", Event.scalar (Scalar.str "b.txt"),
         Event.mapKey "asize", Event.scalar (Scalar.num 20),
         Event.mapKey "dsize", Event.scalar (Scalar.num 20), Event.endMap,
     Event.endArray,
   Event.endArray,
   Event.endArray]

/-- Event stream of `[{"name":"r"},[{"name":"a"},{"name":"f1"}],[{"name":"a"},{"name":"f2"}]]`:
two sibling directories named `a`, so two distinct directories share the
path `/r/a`. -/
def c2ex : List Event :=
  [Event.startArray,
   Event.startMap, Event.mapKey "name", Event.scalar (Scalar.str "r"), Event.endMap,
   Event.startArray,
     Event.startMap, Event.mapKey "name", Event.scalar (Scalar.str "a"), Event.endMap,
     Event.startMap, Event.mapKey "name", Event.scalar (Scalar.str "f1"), Event.endMap,
   Event.endArray,
   Event.startArray,
     Event.startMap, Event.mapKey "name", Event.scalar (Scalar.str "a"), Event.endMap,
     Event.startMap, Event.mapKey "name", Event.scalar (Scalar.str "f2"), Event.endMap,
   Event.endArray,
   Event.endArray]

/-- Event stream of the bare object `{"name":"a//b"}`: an entry name
containing consecutive separators. -/
def c6ex : List Event :=
  [Event.startMap, Event.mapKey "name", Event.scalar (Scalar.str "a//b"), Event.endMap]

/-- A two-node document `[{"name":"d"},{"name":"f"}]` used as witness input. -/
def wtree1 : Node := Node.dir [("name", Scalar.str "d")] [Node.file [("name", Scalar.str "f")]]

/-- An empty directory `[{"name":"e"}]` used as witness input. -/
def wtree2 : Node := Node.dir [("name", Scalar.str "e")] []

/-- A one-file document `{"name":"w","asize":7}` used as witness input. -/
def wtree3 : Node := Node.file [("name", Scalar.str "w"), ("asize", Scalar.num 7)]

/-! ## Basic list and arena lemmas -/

theorem lt_length_of_getElem? {α : Type} : ∀ (l : List α) (i : Nat) (x : α),
    l[i]? = some x → i < l.length
  | [], i, x, h => by simp at h
  | a :: l, 0, x, h => by simp
  | a :: l, i + 1, x, h => by
      simp only [List.getElem?_cons_succ] at h
      have := lt_length_of_getElem? l i x h
      simp only [List.length_cons]
      omega

theorem getElem?_set_self {α : Type} : ∀ (l : List α) (i : Nat) (x : α),
    i < l.length → (l.set i x)[i]? = some x
  | [], i, x, h => by simp at h
  | a :: l, 0, x, h => by simp
  | a :: l, i + 1, x, h => by
      simp only [List.set_cons_succ, List.getElem?_cons_succ]
      exact getElem?_set_self l i x (by simpa using Nat.lt_of_succ_lt_succ h)

theorem set_self_of_getElem? {α : Type} : ∀ (l : List α) (i : Nat) (x : α),
    l[i]? = some x → l.set i x = l
  | [], i, x, h => by simp at h
  | a :: l, 0, x, h => by simp at h; simp [h]
  | a :: l, i + 1, x, h => by
      simp only [List.getElem?_cons_succ] at h
      simp [List.set_cons_succ, set_self_of_getElem? l i x h]

theorem getElem?_append_left {α : Type} : ∀ (l₁ l₂ : List α) (i : Nat),
    i < l₁.length → (l₁ ++ l₂)[i]? = l₁[i]?
  | [], _, i, h => by simp at h
  | a :: l₁, l₂, 0, h => by simp
  | a :: l₁, l₂, i + 1, h => by
      simp only [List.cons_append, List.getElem?_cons_succ]
      exact getElem?_append_left l₁ l₂ i (by simpa using Nat.lt_of_succ_lt_succ h)

theorem getElem?_append_length {α : Type} : ∀ (l₁ : List α) (x : α) (l₂ : List α),
    (l₁ ++ x :: l₂)[l₁.length]? = some x
  | [], x, l₂ => by simp
  | a :: l₁, x, l₂ => by
      simp only [List.cons_append, List.length_cons, List.getElem?_cons_succ]
      exact getElem?_append_length l₁ x l₂

theorem set_append_left {α : Type} : ∀ (l₁ l₂ : List α) (i : Nat) (x : α),
    i < l₁.length → (l₁ ++ l₂).set i x = l₁.set i x ++ l₂
  | [], _, i, x, h => by simp at h
  | a :: l₁, l₂, 0, x, h => by simp
  | a :: l₁, l₂, i + 1, x, h => by
      simp only [List.cons_append, List.set_cons_succ]
      rw [set_append_left l₁ l₂ i x (by simpa using Nat.lt_of_succ_lt_succ h)]

theorem set_append_length {α : Type} : ∀ (l₁ : List α) (x y : α) (l₂ : List α),
    (l₁ ++ x :: l₂).set l₁.length y = l₁ ++ y :: l₂
  | [], x, y, l₂ => by simp
  | a :: l₁, x, y, l₂ => by
      simp only [List.cons_append, List.length_cons, List.set_cons_succ]
      rw [set_append_length l₁ x y l₂]

theorem length_bumpAt (a : List DirFrame) (i k : Nat) :
    (bumpAt a i k).length = a.length := by
  unfold bumpAt
  cases h : a[i]? with
  | none => rfl
  | some f => simp

theorem getElem?_some_of_lt {α : Type} : ∀ (l : List α) (i : Nat),
    i < l.length → ∃ x, l[i]? = some x
  | [], i, h => by simp at h
  | a :: l, 0, h => ⟨a, by simp⟩
  | a :: l, i + 1, h => by
      obtain ⟨x, hx⟩ := getElem?_some_of_lt l i (by simpa using Nat.lt_of_succ_lt_succ h)
      exact ⟨x, by simpa using hx⟩

theorem bumpAt_zero (a : List DirFrame) (i : Nat) : bumpAt a i 0 = a := by
  unfold bumpAt
  cases h : a[i]? with
  | none => rfl
  | some f =>
      show a.set i { f with item_count := f.item_count + 0 } = a
      have hf : ({ f with item_count := f.item_count + 0 } : DirFrame) = f := by
        cases f; simp
      rw [hf]
      exact set_self_of_getElem? a i f h

theorem getElem?_bumpAt_self (a : List DirFrame) (i k : Nat) (f : DirFrame)
    (h : a[i]? = some f) :
    (bumpAt a i k)[i]? = some { f with item_count := f.item_count + k } := by
  unfold bumpAt
  rw [h]
  exact getElem?_set_self a i _ (lt_length_of_getElem? a i f h)

theorem bumpAt_append_left (a b : List DirFrame) (i k : Nat) (h : i < a.length) :
    bumpAt (a ++ b) i k = bumpAt a i k ++ b := by
  unfold bumpAt
  rw [getElem?_append_left a b i h]
  obtain ⟨f, hf⟩ := getElem?_some_of_lt a i h
  rw [hf]
  show (a ++ b).set i { f with item_count := f.item_count + k } =
    a.set i { f with item_count := f.item_count + k } ++ b
  exact set_append_left a b i _ h

theorem bumpAt_append_length (a : List DirFrame) (f : DirFrame) (k : Nat) :
    bumpAt (a ++ [f]) a.length k = a ++ [{ f with item_count := f.item_count + k }] := by
  unfold bumpAt
  rw [getElem?_append_length a f []]
  exact set_append_length a f _ []

theorem bumpAt_eq (a : List DirFrame) (i k : Nat) (f : DirFrame) (h : a[i]? = some f) :
    bumpAt a i k = a.set i { f with item_count := f.item_count + k } := by
  unfold bumpAt
  rw [h]

theorem bumpAt_bumpAt (a : List DirFrame) (i k m : Nat) (f : DirFrame)
    (h : a[i]? = some f) :
    bumpAt (bumpAt a i k) i m = bumpAt a i (k + m) := by
  rw [bumpAt_eq (bumpAt a i k) i m _ (getElem?_bumpAt_self a i k f h),
      bumpAt_eq a i k f h, List.set_set, bumpAt_eq a i (k + m) f h]
  congr 1
  simp [Nat.add_assoc]

/-! ## Run composition lemmas -/

theorem runAux_nil (s : TState) : runAux s [] = (s, [], true) := rfl

theorem runAux_cons_ok (s s1 : TState) (e : Event) (rs : List Row) (rest : List Event)
    (h : step s e = some (s1, rs)) :
    runAux s (e :: rest) =
      ((runAux s1 rest).1, rs ++ (runAux s1 rest).2.1, (runAux s1 rest).2.2) := by
  simp [runAux, h]

theorem runAux_cons_err (s : TState) (e : Event) (rest : List Event)
    (h : step s e = none) :
    runAux s (e :: rest) = (s, [], false) := by
  simp [runAux, h]

theorem runAux_append (a b : List Event) :
    ∀ s : TState, (runAux s a).2.2 = true →
      runAux s (a ++ b) =
        ((runAux (runAux s a).1 b).1,
         (runAux s a).2.1 ++ (runAux (runAux s a).1 b).2.1,
         (runAux (runAux s a).1 b).2.2) := by
  induction a with
  | nil => intro s _; simp [runAux_nil]
  | cons e a ih =>
      intro s hok
      cases hstep : step s e with
      | none =>
          rw [runAux_cons_err s e a hstep] at hok
          simp at hok
      | some out =>
          obtain ⟨s1, rs⟩ := out
          rw [runAux_cons_ok s s1 e rs a hstep] at hok
          simp only [List.cons_append]
          rw [runAux_cons_ok s s1 e rs (a ++ b) hstep,
              runAux_cons_ok s s1 e rs a hstep]
          rw [ih s1 hok]
          simp [List.append_assoc]

theorem runAux_of_eq (s s1 : TState) (evs : List Event) (rows : List Row)
    (h : runAux s evs = (s1, rows, true)) :
    (runAux s evs).1 = s1 ∧ (runAux s evs).2.1 = rows ∧ (runAux s evs).2.2 = true := by
  rw [h]; exact ⟨rfl, rfl, rfl⟩

/-! ## Object assembly -/

theorem runFields (fs : Fields) :
    ∀ (oc : ObjCtx) (C : List Container) (ds : List Nat) (A : List DirFrame),
      runAux ⟨Container.object oc :: C, ds, A⟩ (fieldEvents fs) =
        (⟨Container.object (dataFold oc fs) :: C, ds, A⟩, [], true) := by
  induction fs with
  | nil =>
      intro oc C ds A
      simp [fieldEvents, dataFold, runAux_nil]
  | cons kv fs ih =>
      intro oc C ds A
      have hev : fieldEvents (kv :: fs) =
          Event.mapKey kv.1 :: Event.scalar kv.2 :: fieldEvents fs := by
        simp [fieldEvents]
      rw [hev]
      have h1 : step ⟨Container.object oc :: C, ds, A⟩ (Event.mapKey kv.1) =
          some (⟨Container.object { oc with key := some kv.1 } :: C, ds, A⟩, []) := by
        simp [step, doKey]
      rw [runAux_cons_ok _ _ _ _ _ h1]
      have h2 : step ⟨Container.object { oc with key := some kv.1 } :: C, ds, A⟩
          (Event.scalar kv.2) =
          some (⟨Container.object (applyField oc kv.1 kv.2) :: C, ds, A⟩, []) := by
        simp [step, doScalar, applyField]
      rw [runAux_cons_ok _ _ _ _ _ h2]
      rw [ih (applyField oc kv.1 kv.2) C ds A]
      all_goals simp [dataFold]

/-! ## Frame construction under well-formedness -/

theorem dirNameOf_eq (fs : Fields) (h : fieldsOk fs = true) :
    dirNameOf (dataOf fs).name = some (dirName fs) := by
  unfold dirName fieldsOk at *
  cases hn : (dataOf fs).name with
  | none => simp [dirNameOf, hn]
  | some v =>
      cases v with
      | str s => simp [dirNameOf, hn]
      | num n => rw [hn] at h; simp at h
      | boolean b => rw [hn] at h; simp at h
      | null => simp [dirNameOf, hn]

theorem make_dir_frame_eq (fs : Fields) (h : fieldsOk fs = true) (p : Option DirFrame) :
    _make_dir_frame (dataOf fs) p = some
      { name := if dirName fs = "" then "/" else dirName fs
        path := _build_path (match p with | some q => q.path | none => "") (dirName fs)
        parent := (match p with | some q => q.path | none => "")
        depth := (match p with | some q => q.depth + 1 | none => 0)
        size := (dataOf fs).asize.getD 0
        usage := (dataOf fs).dsize.getD 0
        item_count := 0 } := by
  unfold _make_dir_frame
  rw [dirNameOf_eq fs h]
  rfl


theorem runListP (cs : List Node) (hP : ∀ c ∈ cs, NodeP c) (hwf : Node.WFL cs = true) :
    ∀ (ac : ArrCtx) (C : List Container) (ds : List Nat) (A : List DirFrame)
      (i : Nat) (fA : DirFrame),
      ac.kind = ArrKind.dir → ac.frame = some i → A[i]? = some fA →
      ∃ ext : List DirFrame,
        runAux ⟨Container.array ac :: C, i :: ds, A⟩ (Node.eventsL cs) =
          (⟨Container.array { ac with index := ac.index + cs.length } :: C, i :: ds,
            bumpAt A i (Node.fileCountL cs) ++ ext⟩,
           Node.specRowsL fA.path (fA.depth + 1) cs, true) := by
  induction cs with
  | nil =>
      intro ac C ds A i fA hk hf hA
      refine ⟨[], ?_⟩
      simp [Node.eventsL, runAux_nil, Node.fileCountL, Node.specRowsL, bumpAt_zero]
  | cons c cs ih =>
      intro ac C ds A i fA hk hf hA
      have hwf2 : c.WF = true ∧ Node.WFL cs = true := by
        simpa [Node.WFL, Bool.and_eq_true] using hwf
      obtain ⟨ext1, h1⟩ := hP c (by simp) hwf2.1 ac C ds A i fA hk hf hA
      have hilt : i < A.length := lt_length_of_getElem? A i fA hA
      have hA' : (bumpAt A i c.fileCount ++ ext1)[i]? =
          some { fA with item_count := fA.item_count + c.fileCount } := by
        rw [getElem?_append_left _ _ i (by rw [length_bumpAt]; exact hilt)]
        exact getElem?_bumpAt_self A i _ fA hA
      obtain ⟨ext2, h2⟩ := ih (fun c hc => hP c (by simp [hc])) hwf2.2
        { ac with index := ac.index + 1 } C ds (bumpAt A i c.fileCount ++ ext1) i
        { fA with item_count := fA.item_count + c.fileCount }
        (by simpa using hk) (by simpa using hf) hA'
      refine ⟨ext1 ++ ext2, ?_⟩
      have hev : Node.eventsL (c :: cs) = c.events ++ Node.eventsL cs := rfl
      rw [hev]
      rw [runAux_append _ _ _ (by rw [h1])]
      rw [h1]
      simp only
      rw [h2]
      have harena : bumpAt (bumpAt A i c.fileCount ++ ext1) i (Node.fileCountL cs) ++ ext2 =
          bumpAt A i (Node.fileCountL (c :: cs)) ++ (ext1 ++ ext2) := by
        rw [bumpAt_append_left _ _ i _ (by rw [length_bumpAt]; exact hilt)]
        rw [bumpAt_bumpAt A i _ _ fA hA]
        simp [Node.fileCountL, List.append_assoc]
      rw [harena]
      simp [Node.specRowsL, List.length_cons, Nat.add_assoc, Nat.add_comm 1 cs.length]

theorem nodeP_sca (v : Scalar) : NodeP (.sca v) := by
  intro _ ac C ds A i fA hk hf hA
  refine ⟨[], ?_⟩
  obtain ⟨k0, idx0, fr0⟩ := ac
  simp only [ArrCtx.kind] at hk
  subst hk
  have hstep : step ⟨Container.array ⟨ArrKind.dir, idx0, fr0⟩ :: C, i :: ds, A⟩
      (Event.scalar v) =
      some (⟨Container.array ⟨ArrKind.dir, idx0 + 1, fr0⟩ :: C, i :: ds, A⟩, []) := by
    simp [step, doScalar]
  have hev : (Node.sca v).events = [Event.scalar v] := rfl
  rw [hev, runAux_cons_ok _ _ _ _ _ hstep, runAux_nil]
  simp [Node.fileCount, Node.specRows, bumpAt_zero]

theorem nodeP_file (fs : Fields) : NodeP (.file fs) := by
  intro hwf ac C ds A i fA hk hf hA
  have hok : fieldsOk fs = true := by simpa [Node.WF] using hwf
  obtain ⟨k0, idx0, fr0⟩ := ac
  simp only [ArrCtx.kind, ArrCtx.frame] at hk hf
  subst hk; subst hf
  have hev : (Node.file fs).events =
      Event.startMap :: (fieldEvents fs ++ [Event.endMap]) := by
    simp [Node.events, objEvents]
  rw [hev]
  have h1 : step ⟨Container.array ⟨ArrKind.dir, idx0, some i⟩ :: C, i :: ds, A⟩
      Event.startMap =
      some (⟨Container.object ⟨none, none, none, none⟩ ::
             Container.array ⟨ArrKind.dir, idx0, some i⟩ :: C, i :: ds, A⟩, []) := by
    simp [step]
  rw [runAux_cons_ok _ _ _ _ _ h1]
  rw [runAux_append _ _ _ (by rw [runFields])]
  rw [runFields]
  simp only
  have hd : dataFold ⟨none, none, none, none⟩ fs = dataOf fs := rfl
  rw [hd]
  cases hn : (dataOf fs).name with
  | none =>
      have h2 : step ⟨Container.object (dataOf fs) ::
          Container.array ⟨ArrKind.dir, idx0, some i⟩ :: C, i :: ds, A⟩ Event.endMap =
          some (⟨Container.array ⟨ArrKind.dir, idx0 + 1, some i⟩ :: C, i :: ds, A⟩, []) := by
        simp [step, doEndMap, _make_file_row, hn, hA]
      rw [runAux_cons_ok _ _ _ _ _ h2, runAux_nil]
      refine ⟨[], ?_⟩
      simp [Node.fileCount, Node.specRows, fileRowOf, namedFile, hn, bumpAt_zero]
  | some v =>
      cases v with
      | num n => rw [fieldsOk, hn] at hok; simp at hok
      | boolean b => rw [fieldsOk, hn] at hok; simp at hok
      | null =>
          have h2 : step ⟨Container.object (dataOf fs) ::
              Container.array ⟨ArrKind.dir, idx0, some i⟩ :: C, i :: ds, A⟩ Event.endMap =
              some (⟨Container.array ⟨ArrKind.dir, idx0 + 1, some i⟩ :: C, i :: ds, A⟩,
                []) := by
            simp [step, doEndMap, _make_file_row, hn, hA]
          rw [runAux_cons_ok _ _ _ _ _ h2, runAux_nil]
          refine ⟨[], ?_⟩
          simp [Node.fileCount, Node.specRows, fileRowOf, namedFile, hn, bumpAt_zero]
      | str s =>
          by_cases hs : s = ""
          · subst hs
            have h2 : step ⟨Container.object (dataOf fs) ::
                Container.array ⟨ArrKind.dir, idx0, some i⟩ :: C, i :: ds, A⟩ Event.endMap =
                some (⟨Container.array ⟨ArrKind.dir, idx0 + 1, some i⟩ :: C, i :: ds, A⟩,
                  []) := by
              simp [step, doEndMap, _make_file_row, hn, hA]
            rw [runAux_cons_ok _ _ _ _ _ h2, runAux_nil]
            refine ⟨[], ?_⟩
            simp [Node.fileCount, Node.specRows, fileRowOf, namedFile, hn, bumpAt_zero]
          · have h2 : step ⟨Container.object (dataOf fs) ::
                Container.array ⟨ArrKind.dir, idx0, some i⟩ :: C, i :: ds, A⟩ Event.endMap =
                some (⟨Container.array ⟨ArrKind.dir, idx0 + 1, some i⟩ :: C, i :: ds,
                       bumpAt A i 1⟩,
                  [{ path := _build_path fA.path s
                     name := s
                     parent := fA.path
                     depth := fA.depth + 1
                     size := (dataOf fs).asize.getD 0
                     usage := (dataOf fs).dsize.getD 0
                     is_dir := false
                     item_count := 0 }]) := by
              simp [step, doEndMap, _make_file_row, hn, hA, hs]
            rw [runAux_cons_ok _ _ _ _ _ h2, runAux_nil]
            refine ⟨[], ?_⟩
            have hfc : (Node.file fs).fileCount = 1 := by
              simp [Node.fileCount, namedFile, hn, hs]
            rw [hfc]
            simp [Node.specRows, fileRowOf, hn, hs]

theorem nodeP_dir (h : Fields) (cs : List Node) (ihm : ∀ c ∈ cs, NodeP c) :
    NodeP (.dir h cs) := by
  intro hwf ac C ds A i fA hk hf hA
  have hwf3 : fieldsOk h = true ∧ dataNonempty (dataOf h) = true ∧
      Node.WFL cs = true := by
    simpa [Node.WF, Bool.and_eq_true, and_assoc] using hwf
  obtain ⟨k0, idx0, fr0⟩ := ac
  simp only [ArrCtx.kind, ArrCtx.frame] at hk hf
  subst hk; subst hf
  have hilt : i < A.length := lt_length_of_getElem? A i fA hA
  have hev : (Node.dir h cs).events =
      Event.startArray :: Event.startMap ::
        (fieldEvents h ++ (Event.endMap :: (Node.eventsL cs ++ [Event.endArray]))) := by
    simp [Node.events, objEvents]
  rw [hev]
  have h1 : step ⟨Container.array ⟨ArrKind.dir, idx0, some i⟩ :: C, i :: ds, A⟩
      Event.startArray =
      some (⟨Container.array ⟨ArrKind.unknown, 0, none⟩ ::
             Container.array ⟨ArrKind.dir, idx0, some i⟩ :: C, i :: ds, A⟩, []) := by
    simp [step]
  rw [runAux_cons_ok _ _ _ _ _ h1]
  have h2 : step ⟨Container.array ⟨ArrKind.unknown, 0, none⟩ ::
      Container.array ⟨ArrKind.dir, idx0, some i⟩ :: C, i :: ds, A⟩ Event.startMap =
      some (⟨Container.object ⟨none, none, none, none⟩ ::
             Container.array ⟨ArrKind.unknown, 0, none⟩ ::
             Container.array ⟨ArrKind.dir, idx0, some i⟩ :: C, i :: ds, A⟩, []) := by
    simp [step]
  rw [runAux_cons_ok _ _ _ _ _ h2]
  rw [runAux_append _ _ _ (by rw [runFields])]
  rw [runFields]
  simp only
  have hd : dataFold ⟨none, none, none, none⟩ h = dataOf h := rfl
  rw [hd]
  have hmk := make_dir_frame_eq h hwf3.1 (some fA)
  have h3 : step ⟨Container.object (dataOf h) ::
      Container.array ⟨ArrKind.unknown, 0, none⟩ ::
      Container.array ⟨ArrKind.dir, idx0, some i⟩ :: C, i :: ds, A⟩ Event.endMap =
      some (⟨Container.array ⟨ArrKind.dir, 1, some A.length⟩ ::
             Container.array ⟨ArrKind.dir, idx0, some i⟩ :: C,
             A.length :: i :: ds,
             A ++ [⟨(if dirName h = "" then "/" else dirName h),
                    _build_path fA.path (dirName h), fA.path, fA.depth + 1,
                    (dataOf h).asize.getD 0, (dataOf h).dsize.getD 0, 0⟩]⟩, []) := by
    simp [step, doEndMap, hwf3.2.1, hA, hmk]
  rw [runAux_cons_ok _ _ _ _ _ h3]
  have hA0 : (A ++ [(⟨(if dirName h = "" then "/" else dirName h),
      _build_path fA.path (dirName h), fA.path, fA.depth + 1,
      (dataOf h).asize.getD 0, (dataOf h).dsize.getD 0, 0⟩ : DirFrame)])[A.length]? =
      some ⟨(if dirName h = "" then "/" else dirName h),
            _build_path fA.path (dirName h), fA.path, fA.depth + 1,
            (dataOf h).asize.getD 0, (dataOf h).dsize.getD 0, 0⟩ :=
    getElem?_append_length A _ []
  obtain ⟨ext, hrun⟩ := runListP cs ihm hwf3.2.2 ⟨ArrKind.dir, 1, some A.length⟩
      (Container.array ⟨ArrKind.dir, idx0, some i⟩ :: C) (i :: ds)
      (A ++ [⟨(if dirName h = "" then "/" else dirName h),
              _build_path fA.path (dirName h), fA.path, fA.depth + 1,
              (dataOf h).asize.getD 0, (dataOf h).dsize.getD 0, 0⟩])
      A.length
      ⟨(if dirName h = "" then "/" else dirName h),
       _build_path fA.path (dirName h), fA.path, fA.depth + 1,
       (dataOf h).asize.getD 0, (dataOf h).dsize.getD 0, 0⟩
      rfl rfl hA0
  dsimp only at hrun
  rw [runAux_append _ _ _ (by rw [hrun])]
  rw [hrun]
  simp only
  have e1 : bumpAt (A ++ [(⟨(if dirName h = "" then "/" else dirName h),
      _build_path fA.path (dirName h), fA.path, fA.depth + 1,
      (dataOf h).asize.getD 0, (dataOf h).dsize.getD 0, 0⟩ : DirFrame)])
      A.length (Node.fileCountL cs) ++ ext =
      A ++ ((⟨(if dirName h = "" then "/" else dirName h),
             _build_path fA.path (dirName h), fA.path, fA.depth + 1,
             (dataOf h).asize.getD 0, (dataOf h).dsize.getD 0,
             Node.fileCountL cs⟩ : DirFrame) :: ext) := by
    rw [bumpAt_append_length]
    simp
  have hlook2 : (A ++ ((⟨(if dirName h = "" then "/" else dirName h),
      _build_path fA.path (dirName h), fA.path, fA.depth + 1,
      (dataOf h).asize.getD 0, (dataOf h).dsize.getD 0,
      Node.fileCountL cs⟩ : DirFrame) :: ext))[A.length]? =
      some ⟨(if dirName h = "" then "/" else dirName h),
            _build_path fA.path (dirName h), fA.path, fA.depth + 1,
            (dataOf h).asize.getD 0, (dataOf h).dsize.getD 0,
            Node.fileCountL cs⟩ :=
    getElem?_append_length A _ ext
  have hbb2 : bumpAt (A ++ ((⟨(if dirName h = "" then "/" else dirName h),
      _build_path fA.path (dirName h), fA.path, fA.depth + 1,
      (dataOf h).asize.getD 0, (dataOf h).dsize.getD 0,
      Node.fileCountL cs⟩ : DirFrame) :: ext)) i (Node.fileCountL cs) =
      bumpAt A i (Node.fileCountL cs) ++
        ((⟨(if dirName h = "" then "/" else dirName h),
           _build_path fA.path (dirName h), fA.path, fA.depth + 1,
           (dataOf h).asize.getD 0, (dataOf h).dsize.getD 0,
           Node.fileCountL cs⟩ : DirFrame) :: ext) :=
    bumpAt_append_left A _ i _ hilt
  have h4 : step ⟨Container.array ⟨ArrKind.dir, 1 + cs.length, some A.length⟩ ::
      Container.array ⟨ArrKind.dir, idx0, some i⟩ :: C,
      A.length :: i :: ds,
      bumpAt (A ++ [⟨(if dirName h = "" then "/" else dirName h),
                     _build_path fA.path (dirName h), fA.path, fA.depth + 1,
                     (dataOf h).asize.getD 0, (dataOf h).dsize.getD 0, 0⟩])
        A.length (Node.fileCountL cs) ++ ext⟩ Event.endArray =
      some (⟨Container.array ⟨ArrKind.dir, idx0 + 1, some i⟩ :: C, i :: ds,
             bumpAt A i (Node.fileCountL cs) ++
               (⟨(if dirName h = "" then "/" else dirName h),
                 _build_path fA.path (dirName h), fA.path, fA.depth + 1,
                 (dataOf h).asize.getD 0, (dataOf h).dsize.getD 0,
                 Node.fileCountL cs⟩ :: ext)⟩,
            [_dir_frame_to_row
              ⟨(if dirName h = "" then "/" else dirName h),
               _build_path fA.path (dirName h), fA.path, fA.depth + 1,
               (dataOf h).asize.getD 0, (dataOf h).dsize.getD 0,
               Node.fileCountL cs⟩]) := by
    rw [e1]
    simp [step, doEndArray, bumpParentIndex, hlook2, hbb2]
  rw [runAux_cons_ok _ _ _ _ _ h4, runAux_nil]
  refine ⟨⟨(if dirName h = "" then "/" else dirName h),
           _build_path fA.path (dirName h), fA.path, fA.depth + 1,
           (dataOf h).asize.getD 0, (dataOf h).dsize.getD 0,
           Node.fileCountL cs⟩ :: ext, ?_⟩
  have hfc : (Node.dir h cs).fileCount = Node.fileCountL cs := rfl
  rw [hfc]
  have hrows : (Node.dir h cs).specRows fA.path (fA.depth + 1) =
      Node.specRowsL (_build_path fA.path (dirName h)) (fA.depth + 1 + 1) cs ++
        [dirRowOf h fA.path (fA.depth + 1) (Node.fileCountL cs)] := rfl
  rw [hrows]
  by_cases hnm : dirName h = ""
  · simp [hnm, _dir_frame_to_row, dirRowOf]
  · simp [hnm, _dir_frame_to_row, dirRowOf]

theorem nodePAll : ∀ v : Node, NodeP v
  | .sca v => nodeP_sca v
  | .file fs => nodeP_file fs
  | .dir h cs => nodeP_dir h cs (fun c hc => nodePAll c)
termination_by v => sizeOf v
decreasing_by
  have := List.sizeOf_lt_of_mem hc
  simp only [Node.dir.sizeOf_spec]
  omega

/-- Top-level characterization: on the full event stream of a well-formed
recognized document, `stream_nodes` completes without error, empties both
stacks, and yields exactly the specification rows (root parent path `""`,
root depth 0). -/
theorem runTree (t : Node) (hwf : t.WF = true) :
    ∃ arena : List DirFrame,
      runAux initState t.events = (⟨[], [], arena⟩, t.specRows "" 0, true) := by
  cases t with
  | sca v =>
      refine ⟨[], ?_⟩
      have hstep : step initState (Event.scalar v) = some (initState, []) := by
        simp [step, doScalar, initState]
      have hev : (Node.sca v).events = [Event.scalar v] := rfl
      rw [hev, runAux_cons_ok _ _ _ _ _ hstep, runAux_nil]
      simp [Node.specRows, initState]
  | file fs =>
      have hok : fieldsOk fs = true := by simpa [Node.WF] using hwf
      have hev : (Node.file fs).events =
          Event.startMap :: (fieldEvents fs ++ [Event.endMap]) := by
        simp [Node.events, objEvents]
      rw [hev]
      have h1 : step initState Event.startMap =
          some (⟨[Container.object ⟨none, none, none, none⟩], [], []⟩, []) := by
        simp [step, initState]
      rw [runAux_cons_ok _ _ _ _ _ h1]
      rw [runAux_append _ _ _ (by rw [runFields])]
      rw [runFields]
      simp only
      have hd : dataFold ⟨none, none, none, none⟩ fs = dataOf fs := rfl
      rw [hd]
      cases hn : (dataOf fs).name with
      | none =>
          have h2 : step ⟨[Container.object (dataOf fs)], [], []⟩ Event.endMap =
              some (⟨[], [], []⟩, []) := by
            simp [step, doEndMap, _make_file_row, hn]
          rw [runAux_cons_ok _ _ _ _ _ h2, runAux_nil]
          refine ⟨[], ?_⟩
          simp [Node.specRows, fileRowOf, hn]
      | some v =>
          cases v with
          | num n => rw [fieldsOk, hn] at hok; simp at hok
          | boolean b => rw [fieldsOk, hn] at hok; simp at hok
          | null =>
              have h2 : step ⟨[Container.object (dataOf fs)], [], []⟩ Event.endMap =
                  some (⟨[], [], []⟩, []) := by
                simp [step, doEndMap, _make_file_row, hn]
              rw [runAux_cons_ok _ _ _ _ _ h2, runAux_nil]
              refine ⟨[], ?_⟩
              simp [Node.specRows, fileRowOf, hn]
          | str s =>
              by_cases hs : s = ""
              · subst hs
                have h2 : step ⟨[Container.object (dataOf fs)], [], []⟩ Event.endMap =
                    some (⟨[], [], []⟩, []) := by
                  simp [step, doEndMap, _make_file_row, hn]
                rw [runAux_cons_ok _ _ _ _ _ h2, runAux_nil]
                refine ⟨[], ?_⟩
                simp [Node.specRows, fileRowOf, hn]
              · have h2 : step ⟨[Container.object (dataOf fs)], [], []⟩ Event.endMap =
                    some (⟨[], [], []⟩,
                      [{ path := _build_path "" s
                         name := s
                         parent := ""
                         depth := 0
                         size := (dataOf fs).asize.getD 0
                         usage := (dataOf fs).dsize.getD 0
                         is_dir := false
                         item_count := 0 }]) := by
                  simp [step, doEndMap, _make_file_row, hn, hs]
                rw [runAux_cons_ok _ _ _ _ _ h2, runAux_nil]
                refine ⟨[], ?_⟩
                simp [Node.specRows, fileRowOf, hn, hs]
  | dir h cs =>
      have hwf3 : fieldsOk h = true ∧ dataNonempty (dataOf h) = true ∧
          Node.WFL cs = true := by
        simpa [Node.WF, Bool.and_eq_true, and_assoc] using hwf
      have hev : (Node.dir h cs).events =
          Event.startArray :: Event.startMap ::
            (fieldEvents h ++ (Event.endMap :: (Node.eventsL cs ++ [Event.endArray]))) := by
        simp [Node.events, objEvents]
      rw [hev]
      have h1 : step initState Event.startArray =
          some (⟨[Container.array ⟨ArrKind.unknown, 0, none⟩], [], []⟩, []) := by
        simp [step, initState]
      rw [runAux_cons_ok _ _ _ _ _ h1]
      have h2 : step ⟨[Container.array ⟨ArrKind.unknown, 0, none⟩], [], []⟩
          Event.startMap =
          some (⟨[Container.object ⟨none, none, none, none⟩,
                  Container.array ⟨ArrKind.unknown, 0, none⟩], [], []⟩, []) := by
        simp [step]
      rw [runAux_cons_ok _ _ _ _ _ h2]
      rw [runAux_append _ _ _ (by rw [runFields])]
      rw [runFields]
      simp only
      have hd : dataFold ⟨none, none, none, none⟩ h = dataOf h := rfl
      rw [hd]
      have hmk := make_dir_frame_eq h hwf3.1 none
      have h3 : step ⟨[Container.object (dataOf h),
          Container.array ⟨ArrKind.unknown, 0, none⟩], [], []⟩ Event.endMap =
          some (⟨[Container.array ⟨ArrKind.dir, 1, some 0⟩], [0],
                 [⟨(if dirName h = "" then "/" else dirName h),
                   _build_path "" (dirName h), "", 0,
                   (dataOf h).asize.getD 0, (dataOf h).dsize.getD 0, 0⟩]⟩, []) := by
        simp [step, doEndMap, hwf3.2.1, hmk]
      rw [runAux_cons_ok _ _ _ _ _ h3]
      have hA0 : ([(⟨(if dirName h = "" then "/" else dirName h),
          _build_path "" (dirName h), "", 0,
          (dataOf h).asize.getD 0, (dataOf h).dsize.getD 0, 0⟩ : DirFrame)])[0]? =
          some ⟨(if dirName h = "" then "/" else dirName h),
                _build_path "" (dirName h), "", 0,
                (dataOf h).asize.getD 0, (dataOf h).dsize.getD 0, 0⟩ := by
        simp
      obtain ⟨ext, hrun⟩ := runListP cs (fun c hc => nodePAll c) hwf3.2.2
          ⟨ArrKind.dir, 1, some 0⟩ [] []
          [⟨(if dirName h = "" then "/" else dirName h),
            _build_path "" (dirName h), "", 0,
            (dataOf h).asize.getD 0, (dataOf h).dsize.getD 0, 0⟩]
          0
          ⟨(if dirName h = "" then "/" else dirName h),
           _build_path "" (dirName h), "", 0,
           (dataOf h).asize.getD 0, (dataOf h).dsize.getD 0, 0⟩
          rfl rfl hA0
      dsimp only at hrun
      rw [runAux_append _ _ _ (by rw [hrun])]
      rw [hrun]
      simp only
      have e1 : bumpAt [(⟨(if dirName h = "" then "/" else dirName h),
          _build_path "" (dirName h), "", 0,
          (dataOf h).asize.getD 0, (dataOf h).dsize.getD 0, 0⟩ : DirFrame)]
          0 (Node.fileCountL cs) ++ ext =
          (⟨(if dirName h = "" then "/" else dirName h),
            _build_path "" (dirName h), "", 0,
            (dataOf h).asize.getD 0, (dataOf h).dsize.getD 0,
            Node.fileCountL cs⟩ : DirFrame) :: ext := by
        have hb := bumpAt_append_length ([] : List DirFrame)
          ⟨(if dirName h = "" then "/" else dirName h),
           _build_path "" (dirName h), "", 0,
           (dataOf h).asize.getD 0, (dataOf h).dsize.getD 0, 0⟩ (Node.fileCountL cs)
        simp only [List.nil_append, List.length_nil, Nat.zero_add] at hb
        rw [hb]
        simp
      have h4 : step ⟨[Container.array ⟨ArrKind.dir, 1 + cs.length, some 0⟩],
          [0],
          bumpAt [⟨(if dirName h = "" then "/" else dirName h),
                   _build_path "" (dirName h), "", 0,
                   (dataOf h).asize.getD 0, (dataOf h).dsize.getD 0, 0⟩]
            0 (Node.fileCountL cs) ++ ext⟩ Event.endArray =
          some (⟨[], [],
                 (⟨(if dirName h = "" then "/" else dirName h),
                   _build_path "" (dirName h), "", 0,
                   (dataOf h).asize.getD 0, (dataOf h).dsize.getD 0,
                   Node.fileCountL cs⟩ : DirFrame) :: ext⟩,
                [_dir_frame_to_row
                  ⟨(if dirName h = "" then "/" else dirName h),
                   _build_path "" (dirName h), "", 0,
                   (dataOf h).asize.getD 0, (dataOf h).dsize.getD 0,
                   Node.fileCountL cs⟩]) := by
        rw [e1]
        simp [step, doEndArray, bumpParentIndex]
      rw [runAux_cons_ok _ _ _ _ _ h4, runAux_nil]
      refine ⟨(⟨(if dirName h = "" then "/" else dirName h),
               _build_path "" (dirName h), "", 0,
               (dataOf h).asize.getD 0, (dataOf h).dsize.getD 0,
               Node.fileCountL cs⟩ : DirFrame) :: ext, ?_⟩
      have hrows : (Node.dir h cs).specRows "" 0 =
          Node.specRowsL (_build_path "" (dirName h)) (0 + 1) cs ++
            [dirRowOf h "" 0 (Node.fileCountL cs)] := rfl
      rw [hrows]
      by_cases hnm : dirName h = ""
      · simp [hnm, _dir_frame_to_row, dirRowOf]
      · simp [hnm, _dir_frame_to_row, dirRowOf]

/-- Induction over recognized input trees with membership hypotheses for
directory children. -/
theorem Node.indMem {P : Node → Prop}
    (hsca : ∀ v, P (.sca v))
    (hfile : ∀ fs, P (.file fs))
    (hdir : ∀ h cs, (∀ c ∈ cs, P c) → P (.dir h cs)) : ∀ v, P v
  | .sca v => hsca v
  | .file fs => hfile fs
  | .dir h cs => hdir h cs (fun c hc => Node.indMem hsca hfile hdir c)
termination_by v => sizeOf v
decreasing_by
  have := List.sizeOf_lt_of_mem hc
  simp only [Node.dir.sizeOf_spec]
  omega

/-- The rows `stream_nodes` yields on a well-formed recognized document are
exactly the specification rows. -/
theorem streamRows_spec (t : Node) (hwf : t.WF = true) :
    streamRows t.events = t.specRows "" 0 := by
  obtain ⟨arena, hr⟩ := runTree t hwf
  unfold streamRows
  rw [hr]

/-! ## Row counting -/

theorem specRowsL_length (l : List Node)
    (hl : ∀ c ∈ l, ∀ pp dep, (c.specRows pp dep).length = c.dirCount + c.fileCount) :
    ∀ pp dep, (Node.specRowsL pp dep l).length =
      Node.dirCountL l + Node.fileCountL l := by
  induction l with
  | nil => intro pp dep; simp [Node.specRowsL, Node.dirCountL, Node.fileCountL]
  | cons c cs ih =>
      intro pp dep
      have h1 := hl c (by simp) pp dep
      have h2 := ih (fun c hc => hl c (by simp [hc]))
      simp only [Node.specRowsL, Node.dirCountL, Node.fileCountL, List.length_append,
        h1, h2 pp dep]
      omega

theorem specRows_length (t : Node) :
    ∀ pp dep, (t.specRows pp dep).length = t.dirCount + t.fileCount := by
  induction t using Node.indMem with
  | hsca v => intro pp dep; simp [Node.specRows, Node.dirCount, Node.fileCount]
  | hfile fs =>
      intro pp dep
      simp only [Node.specRows, Node.dirCount, Node.fileCount]
      unfold fileRowOf namedFile
      cases hn : (dataOf fs).name with
      | none => simp
      | some v =>
          cases v with
          | str s =>
              by_cases hs : s = ""
              · simp [hs]
              · simp [hs]
          | num n => simp
          | boolean b => simp
          | null => simp
  | hdir h cs ih =>
      intro pp dep
      simp only [Node.specRows, Node.dirCount, Node.fileCount, List.length_append]
      rw [specRowsL_length cs ih]
      simp
      omega

/-! ## Path well-formedness -/


theorem data_append (a b : String) : (a ++ b).data = a.data ++ b.data := by
  cases a; cases b; rfl

theorem head?_append_left {α : Type} (l₁ l₂ : List α) (h : l₁ ≠ []) :
    (l₁ ++ l₂).head? = l₁.head? := by
  cases l₁ with
  | nil => exact absurd rfl h
  | cons a l => simp

theorem noDbl_of_slashFree : ∀ cs : List Char,
    cs.all (fun c => decide (c ≠ '/')) = true → noDoubleSep cs = true := by
  intro cs
  induction cs with
  | nil => intro _; rfl
  | cons a tail ih =>
      intro hall
      simp only [List.all_cons, Bool.and_eq_true, decide_eq_true_eq] at hall
      cases tail with
      | nil => rfl
      | cons b rest =>
          have hb : b ≠ '/' := by
            have := hall.2
            simp only [List.all_cons, Bool.and_eq_true, decide_eq_true_eq] at this
            exact this.1
          simp only [noDoubleSep, Bool.and_eq_true]
          constructor
          · simp [hall.1]
          · exact ih hall.2

theorem noDbl_cons_slash : ∀ cs : List Char,
    cs.all (fun c => decide (c ≠ '/')) = true → noDoubleSep ('/' :: cs) = true := by
  intro cs hall
  cases cs with
  | nil => rfl
  | cons b rest =>
      simp only [List.all_cons, Bool.and_eq_true, decide_eq_true_eq] at hall
      simp only [noDoubleSep, Bool.and_eq_true]
      exact ⟨by simp [hall.1], noDbl_of_slashFree _ (by
        simp only [List.all_cons, Bool.and_eq_true, decide_eq_true_eq]
        exact hall)⟩

theorem noDbl_append : ∀ (xs ys : List Char),
    noDoubleSep xs = true → noDoubleSep ys = true →
    (∀ a b, xs.getLast? = some a → ys.head? = some b → ¬(a = '/' ∧ b = '/')) →
    noDoubleSep (xs ++ ys) = true := by
  intro xs
  induction xs with
  | nil => intro ys _ hy _; simpa using hy
  | cons a tail ih =>
      intro ys hx hy hj
      cases tail with
      | nil =>
          cases ys with
          | nil => rfl
          | cons b rest =>
              simp only [List.singleton_append, noDoubleSep, Bool.and_eq_true]
              refine ⟨?_, hy⟩
              have := hj a b (by simp) (by simp)
              simp only [Bool.not_eq_true']
              by_cases ha : a = '/'
              · by_cases hb : b = '/'
                · exact absurd ⟨ha, hb⟩ this
                · simp [ha, hb]
              · simp [ha]
      | cons c rest =>
          simp only [List.cons_append, noDoubleSep, Bool.and_eq_true] at hx ⊢
          refine ⟨hx.1, ?_⟩
          exact ih ys hx.2 hy (fun a b hga hgb => hj a b (by
            rwa [List.getLast?_cons_cons]) hgb)

theorem mem_of_head?_some {α : Type} (l : List α) (a : α) (h : l.head? = some a) :
    a ∈ l := by
  cases l with
  | nil => simp at h
  | cons x xs => simp at h; simp [h]

theorem buildPath_ok (pp nm : String)
    (hpp : pp = "" ∨ pathOkP pp)
    (hnm : nm.data.all (fun c => decide (c ≠ '/')) = true) :
    pathOkP (_build_path pp nm) := by
  have hnmhead : nm.data.head? ≠ some '/' := by
    intro hcon
    have hmem := mem_of_head?_some nm.data '/' hcon
    simp only [List.all_eq_true, decide_eq_true_eq] at hnm
    exact (hnm '/' hmem) rfl
  unfold _build_path
  by_cases hpp0 : pp = ""
  · subst hpp0
    by_cases hnm0 : nm = ""
    · subst hnm0
      simp only [ne_eq, not_true_eq_false, if_false, ite_self]
      exact ⟨by decide, by decide⟩
    · have hcur : (if ("" : String) ≠ "" then osPathJoin "" nm
          else if nm ≠ "" then nm else "/") = nm := by
        simp [hnm0]
      rw [hcur]
      by_cases hh : nm.data.head? = some '/'
      · exact absurd hh hnmhead
      · simp only [if_neg hh]
        refine ⟨?_, ?_⟩
        · rw [data_append]
          have : ("/" : String).data = ['/'] := rfl
          rw [this]
          rfl
        · rw [data_append]
          have : ("/" : String).data = ['/'] := rfl
          rw [this]
          exact noDbl_cons_slash nm.data hnm
  · have hok : pathOkP pp := hpp.resolve_left hpp0
    have hppdata : pp.data ≠ [] := by
      intro hcon
      have := hok.1
      rw [hcon] at this
      simp at this
    have hcur : (if pp ≠ "" then osPathJoin pp nm
        else if nm ≠ "" then nm else "/") = osPathJoin pp nm := by
      simp [hpp0]
    rw [hcur]
    unfold osPathJoin
    rw [if_neg hnmhead]
    by_cases hlast : pp.data.getLast? = some '/'
    · have hcond : (pp = "" ∨ pp.data.getLast? = some '/') := Or.inr hlast
      rw [if_pos hcond]
      have hdata : (pp ++ nm).data = pp.data ++ nm.data := data_append pp nm
      have hhead : (pp ++ nm).data.head? = some '/' := by
        rw [hdata, head?_append_left pp.data nm.data hppdata]
        exact hok.1
      rw [if_pos hhead]
      refine ⟨hhead, ?_⟩
      rw [hdata]
      refine noDbl_append pp.data nm.data hok.2 (noDbl_of_slashFree nm.data hnm) ?_
      intro a b _ hgb hcon
      have hmem := mem_of_head?_some nm.data b hgb
      simp only [List.all_eq_true, decide_eq_true_eq] at hnm
      exact (hnm b hmem) hcon.2
    · have hcond : ¬(pp = "" ∨ pp.data.getLast? = some '/') := by
        rintro (h1 | h2)
        · exact hpp0 h1
        · exact hlast h2
      rw [if_neg hcond]
      have hdata : (pp ++ "/" ++ nm).data = (pp.data ++ ['/']) ++ nm.data := by
        rw [data_append, data_append]
      have hhead : (pp ++ "/" ++ nm).data.head? = some '/' := by
        rw [hdata, head?_append_left _ nm.data (by simp),
            head?_append_left pp.data ['/'] hppdata]
        exact hok.1
      rw [if_pos hhead]
      refine ⟨hhead, ?_⟩
      rw [hdata]
      have hmid : noDoubleSep (pp.data ++ ['/']) = true := by
        refine noDbl_append pp.data ['/'] hok.2 rfl ?_
        intro a b hga hgb hcon
        rw [hga] at hlast
        simp only [Option.some.injEq] at hgb
        exact hlast (by rw [hcon.1])
      refine noDbl_append (pp.data ++ ['/']) nm.data hmid
        (noDbl_of_slashFree nm.data hnm) ?_
      intro a b hga hgb hcon
      have hmem := mem_of_head?_some nm.data b hgb
      simp only [List.all_eq_true, decide_eq_true_eq] at hnm
      exact (hnm b hmem) hcon.2

theorem WFL_mem : ∀ (l : List Node), Node.WFL l = true → ∀ c ∈ l, c.WF = true := by
  intro l
  induction l with
  | nil => intro _ c hc; simp at hc
  | cons a tail ih =>
      intro hl c hc
      simp only [Node.WFL, Bool.and_eq_true] at hl
      rcases List.mem_cons.1 hc with h | h
      · subst h; exact hl.1
      · exact ih hl.2 c h

theorem namesOkL_mem : ∀ (l : List Node), Node.namesOkL l = true → ∀ c ∈ l, c.namesOk = true := by
  intro l
  induction l with
  | nil => intro _ c hc; simp at hc
  | cons a tail ih =>
      intro hl c hc
      simp only [Node.namesOkL, Bool.and_eq_true] at hl
      rcases List.mem_cons.1 hc with h | h
      · subst h; exact hl.1
      · exact ih hl.2 c h

theorem dirName_slashFree (fs : Fields) (h : nameSlashFree fs = true) :
    (dirName fs).data.all (fun c => decide (c ≠ '/')) = true := by
  unfold dirName dirNameOf
  unfold nameSlashFree at h
  cases hn : (dataOf fs).name with
  | none => simp
  | some v =>
      cases v with
      | str s => rw [hn] at h; simpa using h
      | num n =>
          by_cases h0 : n = 0
          · simp [h0]
          · simp [h0]
      | boolean b =>
          by_cases hb : b
          · simp [hb]
          · simp [hb]
      | null => simp

theorem specRowsL_paths (l : List Node)
    (hl : ∀ c ∈ l, ∀ pp dep, c.WF = true → c.namesOk = true →
      (pp = "" ∨ pathOkP pp) → ∀ r ∈ c.specRows pp dep, pathOkP r.path) :
    ∀ pp dep, Node.WFL l = true → Node.namesOkL l = true →
      (pp = "" ∨ pathOkP pp) → ∀ r ∈ Node.specRowsL pp dep l, pathOkP r.path := by
  induction l with
  | nil => intro pp dep _ _ _ r hr; simp [Node.specRowsL] at hr
  | cons c cs ih =>
      intro pp dep hwf hnames hpp r hr
      simp only [Node.WFL, Bool.and_eq_true] at hwf
      simp only [Node.namesOkL, Bool.and_eq_true] at hnames
      simp only [Node.specRowsL, List.mem_append] at hr
      rcases hr with hr | hr
      · exact hl c (by simp) pp dep hwf.1 hnames.1 hpp r hr
      · exact ih (fun c hc => hl c (by simp [hc])) pp dep hwf.2 hnames.2 hpp r hr

theorem specRows_paths (t : Node) :
    ∀ pp dep, t.WF = true → t.namesOk = true → (pp = "" ∨ pathOkP pp) →
      ∀ r ∈ t.specRows pp dep, pathOkP r.path := by
  induction t using Node.indMem with
  | hsca v => intro pp dep _ _ _ r hr; simp [Node.specRows] at hr
  | hfile fs =>
      intro pp dep _ hnames hpp r hr
      simp only [Node.specRows] at hr
      unfold fileRowOf at hr
      unfold Node.namesOk nameSlashFree at hnames
      cases hn : (dataOf fs).name with
      | none => rw [hn] at hr; simp at hr
      | some v =>
          cases v with
          | str s =>
              rw [hn] at hr hnames
              by_cases hs : s = ""
              · simp [hs] at hr
              · simp only [hs, if_false, Option.toList_some, List.mem_singleton] at hr
                subst hr
                exact buildPath_ok pp s hpp hnames
          | num n => rw [hn] at hr; simp at hr
          | boolean b => rw [hn] at hr; simp at hr
          | null => rw [hn] at hr; simp at hr
  | hdir h cs ih =>
      intro pp dep hwf hnames hpp r hr
      have hwf3 : fieldsOk h = true ∧ dataNonempty (dataOf h) = true ∧
          Node.WFL cs = true := by
        simpa [Node.WF, Bool.and_eq_true, and_assoc] using hwf
      have hnames2 : nameSlashFree h = true ∧ Node.namesOkL cs = true := by
        simpa [Node.namesOk, Bool.and_eq_true] using hnames
      have hpOk : pathOkP (_build_path pp (dirName h)) :=
        buildPath_ok pp (dirName h) hpp (dirName_slashFree h hnames2.1)
      simp only [Node.specRows, List.mem_append, List.mem_singleton] at hr
      rcases hr with hr | hr
      · exact specRowsL_paths cs (fun c hc pp' dep' => ih c hc pp' dep')
          (_build_path pp (dirName h)) (dep + 1) hwf3.2.2 hnames2.2
          (Or.inr hpOk) r hr
      · subst hr
        exact hpOk


theorem stackInv_init : StackInv initState := by
  refine ⟨rfl, ?_, ?_⟩
  · intro c hc; simp [initState] at hc
  · intro i hi; simp [initState] at hi

theorem liveFrames_nil : liveFrames [] = [] := rfl

theorem liveFrames_object (oc : ObjCtx) (rest : List Container) :
    liveFrames (Container.object oc :: rest) = liveFrames rest := by
  simp [liveFrames, List.filterMap_cons]

theorem liveFrames_array_none (ac : ArrCtx) (rest : List Container)
    (h : ac.frame = none) :
    liveFrames (Container.array ac :: rest) = liveFrames rest := by
  simp [liveFrames, List.filterMap_cons, h]

theorem liveFrames_array_some (ac : ArrCtx) (rest : List Container) (i : Nat)
    (h : ac.frame = some i) :
    liveFrames (Container.array ac :: rest) = i :: liveFrames rest := by
  simp [liveFrames, List.filterMap_cons, h]

theorem liveFrames_length_le : ∀ l : List Container,
    (liveFrames l).length ≤ l.length := by
  intro l
  induction l with
  | nil => simp [liveFrames_nil]
  | cons c rest ih =>
      cases c with
      | object oc => rw [liveFrames_object]; simp; omega
      | array ac =>
          cases hfr : ac.frame with
          | none => rw [liveFrames_array_none _ _ hfr]; simp; omega
          | some i => rw [liveFrames_array_some _ _ _ hfr]; simp; omega

theorem liveFrames_bumpParent (rest : List Container) :
    liveFrames (bumpParentIndex rest) = liveFrames rest := by
  cases rest with
  | nil => rfl
  | cons c tl =>
      cases c with
      | object oc => rfl
      | array ac2 =>
          cases hfr : ac2.frame with
          | none =>
              rw [show bumpParentIndex (Container.array ac2 :: tl) =
                Container.array { ac2 with index := ac2.index + 1 } :: tl from rfl]
              rw [liveFrames_array_none _ _ (by simpa using hfr),
                  liveFrames_array_none _ _ hfr]
          | some i =>
              rw [show bumpParentIndex (Container.array ac2 :: tl) =
                Container.array { ac2 with index := ac2.index + 1 } :: tl from rfl]
              rw [liveFrames_array_some _ _ _ (by simpa using hfr),
                  liveFrames_array_some _ _ _ hfr]

theorem framedDir_bumpParent (rest : List Container)
    (h : ∀ c ∈ rest, framedDir c) : ∀ c ∈ bumpParentIndex rest, framedDir c := by
  cases rest with
  | nil => simpa [bumpParentIndex] using h
  | cons c tl =>
      cases c with
      | object oc => simpa [bumpParentIndex] using h
      | array ac2 =>
          intro c hc
          rw [show bumpParentIndex (Container.array ac2 :: tl) =
            Container.array { ac2 with index := ac2.index + 1 } :: tl from rfl] at hc
          rcases List.mem_cons.1 hc with hh | hh
          · subst hh
            have := h (Container.array ac2) (by simp)
            simpa [framedDir] using this
          · exact h c (by simp [hh])

theorem length_bumpParent (rest : List Container) :
    (bumpParentIndex rest).length = rest.length := by
  cases rest with
  | nil => rfl
  | cons c tl => cases c <;> rfl

theorem stepInv_endArray (s s' : TState) (rows : List Row)
    (hInv : StackInv s) (hstep : doEndArray s = some (s', rows)) :
    StackInv s' ∧ s'.containers.length + 1 = s.containers.length ∧ rows.length ≤ 1 := by
  obtain ⟨hds, hfd, hbound⟩ := hInv
  cases hc : s.containers with
  | nil => rw [doEndArray, hc] at hstep; simp at hstep
  | cons c rest =>
      cases c with
      | object oc => rw [doEndArray, hc] at hstep; simp at hstep
      | array ac =>
          have hrest_fd : ∀ c ∈ rest, framedDir c := by
            intro c hmem; exact hfd c (by rw [hc]; simp [hmem])
          by_cases hk : ac.kind = ArrKind.dir
          · cases hfr : ac.frame with
            | none =>
                rw [doEndArray, hc] at hstep
                simp only [hk, hfr, if_true, if_pos] at hstep
                simp only [Option.some.injEq, Prod.mk.injEq] at hstep
                obtain ⟨h1, h2⟩ := hstep
                subst h1; subst h2
                refine ⟨⟨?_, ?_, ?_⟩, ?_, by simp⟩
                · rw [hds, hc, liveFrames_array_none _ _ hfr, liveFrames_bumpParent]
                · exact framedDir_bumpParent rest hrest_fd
                · intro i hi; exact hbound i hi
                · simp [length_bumpParent]
            | some i =>
                have hdseq : s.dirStack = i :: liveFrames rest := by
                  rw [hds, hc, liveFrames_array_some _ _ _ hfr]
                have hib : i < s.arena.length := hbound i (by rw [hdseq]; simp)
                obtain ⟨f, hfi⟩ := getElem?_some_of_lt _ i hib
                rw [doEndArray, hc] at hstep
                simp only [hk, hfr, hfi, if_true, hdseq, if_pos] at hstep
                cases hlf : liveFrames rest with
                | nil =>
                    rw [hlf] at hstep
                    simp only [Option.some.injEq, Prod.mk.injEq] at hstep
                    obtain ⟨h1, h2⟩ := hstep
                    subst h1; subst h2
                    refine ⟨⟨?_, ?_, ?_⟩, ?_, by simp⟩
                    · rw [liveFrames_bumpParent, hlf]
                    · exact framedDir_bumpParent rest hrest_fd
                    · intro j hj; simp at hj
                    · simp [length_bumpParent]
                | cons j tl =>
                    rw [hlf] at hstep
                    simp only [Option.some.injEq, Prod.mk.injEq] at hstep
                    obtain ⟨h1, h2⟩ := hstep
                    subst h1; subst h2
                    refine ⟨⟨?_, ?_, ?_⟩, ?_, by simp⟩
                    · rw [liveFrames_bumpParent, hlf]
                    · exact framedDir_bumpParent rest hrest_fd
                    · intro m hm
                      rw [length_bumpAt]
                      refine hbound m ?_
                      rw [hdseq, hlf]
                      simp at hm ⊢
                      rcases hm with hm | hm
                      · right; left; exact hm
                      · right; right; exact hm
                    · simp [length_bumpParent]
          · have hfr : ac.frame = none := by
              cases hfr2 : ac.frame with
              | none => rfl
              | some i =>
                  have := hfd (Container.array ac) (by rw [hc]; simp) (by simp [hfr2])
                  exact absurd this hk
            rw [doEndArray, hc] at hstep
            simp only [hk, if_false] at hstep
            simp only [Option.some.injEq, Prod.mk.injEq] at hstep
            obtain ⟨h1, h2⟩ := hstep
            subst h1; subst h2
            refine ⟨⟨?_, ?_, ?_⟩, ?_, by simp⟩
            · rw [hds, hc, liveFrames_array_none _ _ hfr, liveFrames_bumpParent]
            · exact framedDir_bumpParent rest hrest_fd
            · intro i hi; exact hbound i hi
            · simp [length_bumpParent]

theorem stepInv_endMap (s s' : TState) (rows : List Row)
    (hInv : StackInv s) (hstep : doEndMap s = some (s', rows)) :
    StackInv s' ∧ s'.containers.length + 1 = s.containers.length ∧ rows.length ≤ 1 := by
  obtain ⟨hds, hfd, hbound⟩ := hInv
  cases hc : s.containers with
  | nil => rw [doEndMap, hc] at hstep; simp at hstep
  | cons c rest =>
      cases c with
      | array ac => rw [doEndMap, hc] at hstep; simp at hstep
      | object oc =>
          have hds2 : s.dirStack = liveFrames rest := by
            rw [hds, hc, liveFrames_object]
          have hrest_fd : ∀ c ∈ rest, framedDir c := by
            intro c hm; exact hfd c (by rw [hc]; simp [hm])
          cases rest with
          | nil =>
              cases hmf : _make_file_row oc none with
              | skip =>
                  simp [doEndMap, hc, hmf] at hstep
                  obtain ⟨h1, h2⟩ := hstep
                  subst h1; subst h2
                  exact ⟨⟨hds2, by intro c hcm; simp at hcm,
                         fun i hi => hbound i hi⟩, by simp, by simp⟩
              | emit r =>
                  simp [doEndMap, hc, hmf] at hstep
                  obtain ⟨h1, h2⟩ := hstep
                  subst h1; subst h2
                  exact ⟨⟨hds2, by intro c hcm; simp at hcm,
                         fun i hi => hbound i hi⟩, by simp, by simp⟩
              | fail => simp [doEndMap, hc, hmf] at hstep
          | cons c2 rest2 =>
              cases c2 with
              | object oc2 =>
                  cases hmf : _make_file_row oc none with
                  | skip =>
                      simp [doEndMap, hc, hmf] at hstep
                      obtain ⟨h1, h2⟩ := hstep
                      subst h1; subst h2
                      exact ⟨⟨hds2, hrest_fd, fun i hi => hbound i hi⟩, by simp, by simp⟩
                  | emit r =>
                      simp [doEndMap, hc, hmf] at hstep
                      obtain ⟨h1, h2⟩ := hstep
                      subst h1; subst h2
                      exact ⟨⟨hds2, hrest_fd, fun i hi => hbound i hi⟩, by simp, by simp⟩
                  | fail => simp [doEndMap, hc, hmf] at hstep
              | array ac =>
                  have hfd_ac : ac.frame.isSome = true → ac.kind = ArrKind.dir := by
                    have := hfd (Container.array ac) (by rw [hc]; simp)
                    simpa [framedDir] using this
                  by_cases hcl : ac.kind = ArrKind.unknown ∧ ac.index = 0
                  · obtain ⟨hku, hidx0⟩ := hcl
                    have hfrn : ac.frame = none := by
                      cases hfr2 : ac.frame with
                      | none => rfl
                      | some j =>
                          have := hfd_ac (by simp [hfr2])
                          rw [this] at hku
                          simp at hku
                    by_cases hne : dataNonempty oc = true
                    · -- classified dir: the metadata head creates the frame
                      cases hmk : _make_dir_frame oc
                          (s.dirStack.head?.bind fun j => s.arena[j]?) with
                      | none => simp [doEndMap, hc, hku, hidx0, hne, hfrn, hmk] at hstep
                      | some f =>
                          simp [doEndMap, hc, hku, hidx0, hne, hfrn, hmk] at hstep
                          obtain ⟨h1, h2⟩ := hstep
                          subst h1; subst h2
                          refine ⟨⟨?_, ?_, ?_⟩, by simp, by simp⟩
                          · rw [liveFrames_array_some _ _ s.arena.length rfl]
                            rw [hds2, liveFrames_array_none _ _ hfrn]
                          · intro c hcm
                            rcases List.mem_cons.1 hcm with hh | hh
                            · subst hh; intro _; rfl
                            · exact hrest_fd c (by simp [hh])
                          · intro j hj
                            simp only [List.length_append, List.length_cons,
                              List.length_nil] at *
                            rcases List.mem_cons.1 hj with hh | hh
                            · omega
                            · have := hbound j hh
                              omega
                    · -- classified top: no row, only the index advances
                      have hne2 : dataNonempty oc = false := by
                        rwa [Bool.not_eq_true] at hne
                      simp [doEndMap, hc, hku, hidx0, hne2, hfrn] at hstep
                      obtain ⟨h1, h2⟩ := hstep
                      subst h1; subst h2
                      refine ⟨⟨?_, ?_, ?_⟩, by simp, by simp⟩
                      · rw [liveFrames_array_none _ _ (by simpa using hfrn)]
                        rw [hds2, liveFrames_array_none _ _ hfrn]
                      · intro c hcm
                        rcases List.mem_cons.1 hcm with hh | hh
                        · subst hh
                          intro hsome
                          simp at hsome
                        · exact hrest_fd c (by simp [hh])
                      · intro j hj; exact hbound j hj
                  · by_cases hk1 : ac.kind = ArrKind.dir
                    · by_cases hcc : ac.index = 0 ∧ ac.frame = none
                      · obtain ⟨hccidx, hccfr⟩ := hcc
                        cases hmk : _make_dir_frame oc
                            (s.dirStack.head?.bind fun j => s.arena[j]?) with
                        | none =>
                            simp [doEndMap, hc, hcl, hk1, hccidx, hccfr, hmk] at hstep
                        | some f =>
                            simp [doEndMap, hc, hcl, hk1, hccidx, hccfr, hmk] at hstep
                            obtain ⟨h1, h2⟩ := hstep
                            subst h1; subst h2
                            refine ⟨⟨?_, ?_, ?_⟩, by simp, by simp⟩
                            · rw [liveFrames_array_some _ _ s.arena.length rfl]
                              rw [hds2, liveFrames_array_none _ _ hccfr]
                            · intro c hcm
                              rcases List.mem_cons.1 hcm with hh | hh
                              · subst hh; intro _; rfl
                              · exact hrest_fd c (by simp [hh])
                            · intro j hj
                              simp only [List.length_append, List.length_cons,
                                List.length_nil] at *
                              rcases List.mem_cons.1 hj with hh | hh
                              · omega
                              · have := hbound j hh
                                omega
                      · cases hmf : _make_file_row oc
                            (s.dirStack.head?.bind fun j => s.arena[j]?) with
                        | fail => simp [doEndMap, hc, hcl, hk1, hcc, hmf] at hstep
                        | skip =>
                            simp [doEndMap, hc, hcl, hk1, hcc, hmf] at hstep
                            obtain ⟨h1, h2⟩ := hstep
                            subst h1; subst h2
                            refine ⟨⟨?_, ?_, ?_⟩, by simp, by simp⟩
                            · cases hfr2 : ac.frame with
                              | none =>
                                  rw [liveFrames_array_none _ _ (by simpa using hfr2)]
                                  rw [hds2, liveFrames_array_none _ _ hfr2]
                              | some j =>
                                  rw [liveFrames_array_some _ _ j (by simpa using hfr2)]
                                  rw [hds2, liveFrames_array_some _ _ j hfr2]
                            · intro c hcm
                              rcases List.mem_cons.1 hcm with hh | hh
                              · subst hh; intro _; rfl
                              · exact hrest_fd c (by simp [hh])
                            · intro j hj; exact hbound j hj
                        | emit r =>
                            cases hdsc : s.dirStack with
                            | nil =>
                                rw [hdsc] at hmf
                                simp only [List.head?_nil, Option.none_bind] at hmf
                                simp [doEndMap, hc, hcl, hk1, hcc, hmf, hdsc] at hstep
                                obtain ⟨h1, h2⟩ := hstep
                                subst h1; subst h2
                                refine ⟨⟨?_, ?_, ?_⟩, by simp, by simp⟩
                                · cases hfr2 : ac.frame with
                                  | none =>
                                      rw [liveFrames_array_none _ _ (by simpa using hfr2)]
                                      rw [← hdsc, hds2,
                                          liveFrames_array_none _ _ hfr2]
                                  | some j =>
                                      rw [liveFrames_array_some _ _ j (by simpa using hfr2)]
                                      rw [← hdsc, hds2,
                                          liveFrames_array_some _ _ j hfr2]
                                · intro c hcm
                                  rcases List.mem_cons.1 hcm with hh | hh
                                  · subst hh; intro _; rfl
                                  · exact hrest_fd c (by simp [hh])
                                · intro j hj
                                  rw [← hdsc] at hj
                                  exact hbound j hj
                            | cons j0 tl =>
                                rw [hdsc] at hmf
                                simp only [List.head?_cons, Option.some_bind] at hmf
                                simp [doEndMap, hc, hcl, hk1, hcc, hmf, hdsc] at hstep
                                obtain ⟨h1, h2⟩ := hstep
                                subst h1; subst h2
                                refine ⟨⟨?_, ?_, ?_⟩, by simp, by simp⟩
                                · cases hfr2 : ac.frame with
                                  | none =>
                                      rw [liveFrames_array_none _ _ (by simpa using hfr2)]
                                      rw [← hdsc, hds2,
                                          liveFrames_array_none _ _ hfr2]
                                  | some j =>
                                      rw [liveFrames_array_some _ _ j (by simpa using hfr2)]
                                      rw [← hdsc, hds2,
                                          liveFrames_array_some _ _ j hfr2]
                                · intro c hcm
                                  rcases List.mem_cons.1 hcm with hh | hh
                                  · subst hh; intro _; rfl
                                  · exact hrest_fd c (by simp [hh])
                                · intro j hj
                                  rw [length_bumpAt]
                                  rw [← hdsc] at hj
                                  exact hbound j hj
                    · -- top or unknown beyond index 0: no row
                      have hfrn : ac.frame = none := by
                        cases hfr2 : ac.frame with
                        | none => rfl
                        | some j => exact absurd (hfd_ac (by simp [hfr2])) hk1
                      simp [doEndMap, hc, hcl, hk1, hfrn] at hstep
                      obtain ⟨h1, h2⟩ := hstep
                      subst h1; subst h2
                      refine ⟨⟨?_, ?_, ?_⟩, by simp, by simp⟩
                      · rw [liveFrames_array_none _ _ (by simpa using hfrn)]
                        rw [hds2, liveFrames_array_none _ _ hfrn]
                      · intro c hcm
                        rcases List.mem_cons.1 hcm with hh | hh
                        · subst hh
                          intro hsome
                          simp at hsome
                        · exact hrest_fd c (by simp [hh])
                      · intro j hj; exact hbound j hj

theorem step_inv (s s' : TState) (e : Event) (rows : List Row)
    (hInv : StackInv s) (hstep : step s e = some (s', rows)) :
    StackInv s' ∧ s'.containers.length + closesOf e = s.containers.length + opensOf e ∧
      rows.length ≤ 1 := by
  obtain ⟨hds, hfd, hbound⟩ := hInv
  cases e with
  | startArray =>
      simp only [step, Option.some.injEq, Prod.mk.injEq] at hstep
      obtain ⟨h1, h2⟩ := hstep
      subst h1; subst h2
      refine ⟨⟨?_, ?_, ?_⟩, by simp [opensOf, closesOf], by simp⟩
      · rw [liveFrames_array_none _ _ rfl]; exact hds
      · intro c hcm
        rcases List.mem_cons.1 hcm with hh | hh
        · subst hh; intro hsome; simp at hsome
        · exact hfd c hh
      · exact fun i hi => hbound i hi
  | startMap =>
      simp only [step, Option.some.injEq, Prod.mk.injEq] at hstep
      obtain ⟨h1, h2⟩ := hstep
      subst h1; subst h2
      refine ⟨⟨?_, ?_, ?_⟩, by simp [opensOf, closesOf], by simp⟩
      · rw [liveFrames_object]; exact hds
      · intro c hcm
        rcases List.mem_cons.1 hcm with hh | hh
        · subst hh; trivial
        · exact hfd c hh
      · exact fun i hi => hbound i hi
  | mapKey k =>
      cases hc : s.containers with
      | nil => simp [step, doKey, hc] at hstep
      | cons c rest =>
          cases c with
          | object oc =>
              simp [step, doKey, hc] at hstep
              obtain ⟨h1, h2⟩ := hstep
              subst h1; subst h2
              refine ⟨⟨?_, ?_, ?_⟩, by simp [opensOf, closesOf, hc], by simp⟩
              · rw [liveFrames_object, hds, hc, liveFrames_object]
              · intro c hcm
                rcases List.mem_cons.1 hcm with hh | hh
                · subst hh; trivial
                · exact hfd c (by rw [hc]; simp [hh])
              · exact fun i hi => hbound i hi
          | array ac =>
              simp [step, doKey, hc] at hstep
              obtain ⟨h1, h2⟩ := hstep
              subst h1; subst h2
              refine ⟨⟨?_, ?_, ?_⟩, by simp [opensOf, closesOf, hc], by simp⟩
              · rw [hds, hc]
              · exact hfd
              · exact fun i hi => hbound i hi
  | scalar v =>
      cases hc : s.containers with
      | nil =>
          simp [step, doScalar, hc] at hstep
          obtain ⟨h1, h2⟩ := hstep
          subst h1; subst h2
          refine ⟨⟨?_, ?_, ?_⟩, by simp [opensOf, closesOf, hc], by simp⟩
          · rw [hds, hc]
          · exact hfd
          · exact fun i hi => hbound i hi
      | cons c rest =>
          cases c with
          | object oc =>
              simp only [step, doScalar, hc, Option.some.injEq, Prod.mk.injEq] at hstep
              obtain ⟨h1, h2⟩ := hstep
              subst h1; subst h2
              refine ⟨⟨?_, ?_, ?_⟩, by simp [opensOf, closesOf, hc], by simp⟩
              · rw [liveFrames_object, hds, hc, liveFrames_object]
              · intro c hcm
                rcases List.mem_cons.1 hcm with hh | hh
                · subst hh; trivial
                · exact hfd c (by rw [hc]; simp [hh])
              · exact fun i hi => hbound i hi
          | array ac =>
              simp only [step, doScalar, hc, Option.some.injEq, Prod.mk.injEq] at hstep
              obtain ⟨h1, h2⟩ := hstep
              subst h1; subst h2
              refine ⟨⟨?_, ?_, ?_⟩, by simp [opensOf, closesOf, hc], by simp⟩
              · cases hfr2 : ac.frame with
                | none =>
                    rw [liveFrames_array_none _ _ (by simpa using hfr2)]
                    rw [hds, hc, liveFrames_array_none _ _ hfr2]
                | some j =>
                    rw [liveFrames_array_some _ _ j (by simpa using hfr2)]
                    rw [hds, hc, liveFrames_array_some _ _ j hfr2]
              · intro c hcm
                rcases List.mem_cons.1 hcm with hh | hh
                · subst hh
                  intro hsome
                  simp only [ArrCtx.frame] at hsome
                  have hk := hfd (Container.array ac) (by rw [hc]; simp) hsome
                  simp only [ArrCtx.kind]
                  rw [hk]
                  simp [hk]
                · exact hfd c (by rw [hc]; simp [hh])
              · exact fun i hi => hbound i hi
  | endArray =>
      have h := stepInv_endArray s s' rows ⟨hds, hfd, hbound⟩ hstep
      exact ⟨h.1, by simp [opensOf, closesOf]; omega, h.2.2⟩
  | endMap =>
      have h := stepInv_endMap s s' rows ⟨hds, hfd, hbound⟩ hstep
      exact ⟨h.1, by simp [opensOf, closesOf]; omega, h.2.2⟩

theorem runAux_inv (evs : List Event) :
    ∀ s : TState, StackInv s → (runAux s evs).2.2 = true →
      StackInv (runAux s evs).1 ∧
      (runAux s evs).1.containers.length + closeCount evs =
        s.containers.length + openCount evs := by
  induction evs with
  | nil =>
      intro s hInv _
      exact ⟨hInv, by simp [runAux_nil, openCount, closeCount]⟩
  | cons e rest ih =>
      intro s hInv hok
      cases hstep : step s e with
      | none =>
          rw [runAux_cons_err _ _ _ hstep] at hok
          simp at hok
      | some out =>
          obtain ⟨s1, rs⟩ := out
          rw [runAux_cons_ok _ _ _ _ _ hstep] at hok ⊢
          simp only at hok ⊢
          obtain ⟨hInv1, hlen, _⟩ := step_inv s s1 e rs hInv hstep
          obtain ⟨hInv2, hlen2⟩ := ih s1 hInv1 hok
          refine ⟨hInv2, ?_⟩
          simp only [openCount, closeCount]
          omega

/-! ## Remaining helpers for the claims -/

theorem childContrib_eq_fileCount (n : Node) : childContrib n = n.fileCount := by
  cases n with
  | sca v => rfl
  | file fs => rfl
  | dir h cs => rfl

theorem fileCountL_eq_contribSum : ∀ cs : List Node,
    Node.fileCountL cs = (cs.map childContrib).sum := by
  intro cs
  induction cs with
  | nil => rfl
  | cons c tl ih =>
      simp only [Node.fileCountL, List.map_cons, List.sum_cons, ih,
        childContrib_eq_fileCount]

theorem step_rows_le (s : TState) (e : Event) (out : TState × List Row)
    (h : step s e = some out) : out.2.length ≤ 1 := by
  cases e with
  | startArray =>
      simp only [step, Option.some.injEq] at h
      subst h; simp
  | startMap =>
      simp only [step, Option.some.injEq] at h
      subst h; simp
  | mapKey k =>
      cases hk : doKey s k with
      | none => simp [step, hk] at h
      | some s1 =>
          simp [step, hk] at h
          subst h; simp
  | scalar v =>
      simp only [step, Option.some.injEq] at h
      subst h; simp
  | endArray =>
      simp only [step] at h
      unfold doEndArray at h
      repeat' split at h
      all_goals (try dsimp only at h)
      all_goals (try split at h)
      all_goals (try dsimp only at h)
      all_goals (try split at h)
      all_goals (try split at h)
      all_goals (try exact Option.noConfusion h)
      all_goals (try injection h with h2)
      all_goals (try subst h)
      all_goals (try subst h2)
      all_goals (try simp)
  | endMap =>
      simp only [step] at h
      unfold doEndMap at h
      repeat' split at h
      all_goals (try dsimp only at h)
      all_goals (try split at h)
      all_goals (try dsimp only at h)
      all_goals (try split at h)
      all_goals (try split at h)
      all_goals (try exact Option.noConfusion h)
      all_goals (try injection h with h2)
      all_goals (try subst h)
      all_goals (try subst h2)
      all_goals (try simp)


/-! ## The claims -/

/-- C1: for every recognized well-formed input, the rows emitted by
`stream_nodes` are exactly the specification rows, in which every
directory row carries `item_count = Node.fileCountL children`, the total
number of (named) file entries in the directory's subtree; and this total
equals the sum over the direct children of their contributions — 1 per
named direct file child, the child's own final `item_count`
(= `childContrib`) per direct subdirectory.  Together: every emitted
directory row's `item_count` equals both the direct-children sum and the
subtree file total. -/
theorem c1_item_count_correct :
    (∀ t : Node, t.WF = true → streamRows t.events = t.specRows "" 0) ∧
    (∀ cs : List Node, Node.fileCountL cs = (cs.map childContrib).sum) :=
  ⟨fun t hwf => streamRows_spec t hwf, fileCountL_eq_contribSum⟩

theorem c1_item_count_correct_witness :
    Node.WF wtree1 = true ∧
    streamRows wtree1.events = wtree1.specRows "" 0 ∧
    Node.fileCountL [wtree1] = ([wtree1].map childContrib).sum :=
  ⟨by decide, c1_item_count_correct.1 wtree1 (by decide),
   c1_item_count_correct.2 [wtree1]⟩

/-- C2 counterexample: on `c2ex` (two sibling directories both named `a`,
hence both with path `/r/a`), the emitted row at position 2 (`f2`) has
`parent = "/r/a"`, which is the `path` of the directory row already
emitted at position 1 — so a row whose `parent` field leads to that
directory row's path appears strictly *after* it, refuting the claim's
parent-field-based post-order property as stated. -/
theorem c2_postorder_counterexample :
    (streamRows c2ex)[1]? = some ⟨"/r/a", "a", "/r", 1, 0, 0, true, 1⟩ ∧
    (streamRows c2ex)[2]? = some ⟨"/r/a/f2", "f2", "/r/a", 2, 0, 0, false, 0⟩ := by
  decide

/-- C2 amended: emission is strict *structural* post-order — on every
recognized well-formed input the row sequence equals the specification
sequence, and for a directory node that sequence is all rows of its
children's subtrees followed by the directory's own row, carrying its
final `item_count`; so a directory row is emitted exactly once, after all
of its descendants, and never revised.  The parent-field-based phrasing of
the claim holds only when emitted paths are unique; with duplicate sibling
names two directories share a path and a later sibling's child row has a
`parent` string equal to the earlier directory row's path. -/
theorem c2_postorder_amended :
    (∀ t : Node, t.WF = true → streamRows t.events = t.specRows "" 0) ∧
    (∀ (h : Fields) (cs : List Node) (pp : String) (dep : Nat),
      (Node.dir h cs).specRows pp dep =
        Node.specRowsL (_build_path pp (dirName h)) (dep + 1) cs ++
          [dirRowOf h pp dep (Node.fileCountL cs)]) :=
  ⟨fun t hwf => streamRows_spec t hwf, fun _ _ _ _ => rfl⟩

theorem c2_postorder_amended_witness :
    Node.WF wtree2 = true ∧
    streamRows wtree2.events = wtree2.specRows "" 0 :=
  ⟨by decide, c2_postorder_amended.1 wtree2 (by decide)⟩

/-- C3: on the exact scenario-1 input, `stream_nodes` emits exactly the
four rows `a.txt` (file, size 10), `b.txt` (file, size 20), `sub`
(directory, item_count 1, size 20), `root` (directory, item_count 2,
size 100), in this order. -/
theorem c3_scenario_one :
    streamRows ex1 =
      [⟨"/root/a.txt", "a.txt", "/root", 1, 10, 10, false, 0⟩,
       ⟨"/root/sub/b.txt", "b.txt", "/root/sub", 2, 20, 20, false, 0⟩,
       ⟨"/root/sub", "sub", "/root", 1, 20, 20, true, 1⟩,
       ⟨"/root", "root", "", 0, 100, 50, true, 2⟩] := by
  decide

/-- C4: for every recognized well-formed input tree, the number of emitted
rows equals the number of directory-list structures (all of which have a
valid metadata head, by well-formedness) plus the number of named file
objects (`Node.fileCount`); unnamed file objects contribute no row. -/
theorem c4_row_count (t : Node) (hwf : t.WF = true) :
    (streamRows t.events).length = t.dirCount + t.fileCount := by
  rw [streamRows_spec t hwf, specRows_length]

theorem c4_row_count_witness :
    Node.WF wtree1 = true ∧
    (streamRows wtree1.events).length = wtree1.dirCount + wtree1.fileCount :=
  ⟨by decide, c4_row_count wtree1 (by decide)⟩

/-- C5: after any successfully processed event sequence the container
stack holds exactly one entry per opened-but-not-yet-closed array or
object (its size plus the closes seen equals the opens seen), and the
directory stack holds at most that many frames — so the live state is
bounded by the input's nesting depth, not by the number of entries; and
each event yields at most one row (rows are handed out one at a time,
never buffered). -/
theorem c5_bounded_state :
    (∀ (evs : List Event) (s : TState) (rows : List Row),
      runAux initState evs = (s, rows, true) →
      s.containers.length + closeCount evs = openCount evs ∧
      s.dirStack.length ≤ s.containers.length) ∧
    (∀ (s : TState) (e : Event) (out : TState × List Row),
      step s e = some out → out.2.length ≤ 1) := by
  constructor
  · intro evs s rows h
    have hok : (runAux initState evs).2.2 = true := by rw [h]
    obtain ⟨hInv, hlen⟩ := runAux_inv evs initState stackInv_init hok
    rw [h] at hInv hlen
    simp only at hInv hlen
    constructor
    · simpa [initState] using hlen
    · obtain ⟨hds, _, _⟩ := hInv
      rw [hds]
      exact liveFrames_length_le _
  · exact step_rows_le

theorem c5_bounded_state_witness :
    ((runAux initState ex1).1.containers.length + closeCount ex1 = openCount ex1 ∧
     (runAux initState ex1).1.dirStack.length ≤
       (runAux initState ex1).1.containers.length) ∧
    ((⟨⟨[Container.object ⟨none, none, none, none⟩], [], []⟩,
       ([] : List Row)⟩ : TState × List Row).2.length ≤ 1) := by
  refine ⟨?_, ?_⟩
  · exact c5_bounded_state.1 ex1 (runAux initState ex1).1
      (runAux initState ex1).2.1 (by decide)
  · exact c5_bounded_state.2 initState Event.startMap _ (by decide)

/-- C6 counterexample: on the bare file object with name `a//b`,
`stream_nodes` emits a row whose path `/a//b` contains a doubled
separator, refuting the unconditional "no doubled separators" part of the
claim (`_build_path` never inserts a doubled separator, but it also never
collapses separators already present in an entry name). -/
theorem c6_no_double_sep_counterexample :
    streamRows c6ex = [⟨"/a//b", "a//b", "", 0, 0, 0, false, 0⟩] ∧
    noDoubleSep "/a//b".data = false := by
  decide

/-- C6 amended: `_build_path` always returns a string starting with the
separator; `_build_path "" "" = "/"` and `_build_path "/a" "b" = "/a/b"`;
and on every recognized well-formed input in which no effective entry name
contains the separator, every emitted row's path starts with the separator
and contains no doubled separator.  (The original claim's no-doubling part
is unconditional and fails when a name itself contains `//` — see the
counterexample.) -/
theorem c6_path_shape_amended :
    (∀ pp nm : String, (_build_path pp nm).data.head? = some '/') ∧
    _build_path "" "" = "/" ∧
    _build_path "/a" "b" = "/a/b" ∧
    (∀ t : Node, t.WF = true → t.namesOk = true →
      ∀ r ∈ streamRows t.events,
        r.path.data.head? = some '/' ∧ noDoubleSep r.path.data = true) := by
  refine ⟨?_, by decide, by decide, ?_⟩
  · intro pp nm
    have hgen : ∀ c : String,
        (if c.data.head? = some '/' then c else "/" ++ c).data.head? = some '/' := by
      intro c
      by_cases hcur : c.data.head? = some '/'
      · rw [if_pos hcur]; exact hcur
      · rw [if_neg hcur, data_append]; rfl
    exact hgen (if pp ≠ "" then osPathJoin pp nm else if nm ≠ "" then nm else "/")
  · intro t hwf hnames r hr
    rw [streamRows_spec t hwf] at hr
    exact specRows_paths t "" 0 hwf hnames (Or.inl rfl) r hr

theorem c6_path_shape_amended_witness :
    (_build_path "/x" "y").data.head? = some '/' ∧
    Node.WF wtree3 = true ∧ Node.namesOk wtree3 = true ∧
    (((⟨"/w", "w", "", 0, 7, 0, false, 0⟩ : Row)).path.data.head? = some '/' ∧
      noDoubleSep ((⟨"/w", "w", "", 0, 7, 0, false, 0⟩ : Row)).path.data = true) :=
  ⟨c6_path_shape_amended.1 "/x" "y", by decide, by decide,
   c6_path_shape_amended.2.2.2 wtree3 (by decide) (by decide) _ (by decide)⟩

/-- C7: `_coerce_int` is a total function (so it never raises): `None`
coerces to 0, a non-numeric string such as `"abc"` (anything CPython
`int()` rejects) coerces to 0, and a missing `asize`/`dsize` field yields
0 in the constructed frame. -/
theorem c7_coerce_total :
    coerce_int Scalar.null = 0 ∧
    coerce_int (Scalar.str "abc") = 0 ∧
    (∀ s : String, pyParseInt s = none → coerce_int (Scalar.str s) = 0) ∧
    (∀ (info : ObjCtx) (p : Option DirFrame) (f : DirFrame),
      info.asize = none → info.dsize = none →
      _make_dir_frame info p = some f → f.size = 0 ∧ f.usage = 0) := by
  refine ⟨rfl, by decide, ?_, ?_⟩
  · intro s h
    simp [coerce_int, h]
  · intro info p f h1 h2 hmk
    unfold _make_dir_frame at hmk
    cases hdn : dirNameOf info.name with
    | none => rw [hdn] at hmk; simp at hmk
    | some nm =>
        rw [hdn] at hmk
        simp only [Option.map_some', Option.some.injEq] at hmk
        subst hmk
        simp [h1, h2]

theorem c7_coerce_total_witness :
    coerce_int (Scalar.str "zz") = 0 ∧
    (_make_dir_frame ⟨some (Scalar.str "d"), none, none, none⟩ none =
      some ⟨"d", "/d", "", 0, 0, 0, 0⟩) ∧
    (⟨"d", "/d", "", 0, 0, 0, 0⟩ : DirFrame).size = 0 ∧
    (⟨"d", "/d", "", 0, 0, 0, 0⟩ : DirFrame).usage = 0 :=
  ⟨c7_coerce_total.2.2.1 "zz" (by decide), by decide,
   (c7_coerce_total.2.2.2 ⟨some (Scalar.str "d"), none, none, none⟩ none
     ⟨"d", "/d", "", 0, 0, 0, 0⟩ rfl rfl (by decide)).1,
   (c7_coerce_total.2.2.2 ⟨some (Scalar.str "d"), none, none, none⟩ none
     ⟨"d", "/d", "", 0, 0, 0, 0⟩ rfl rfl (by decide)).2⟩

/-- C8: a file object whose `name` is absent, `None`, or the empty string
produces no row (`_make_file_row` skips it), and the `end_map` step for
such an object — provided it is not the metadata head of a directory
array — yields no row and leaves the arena (hence every directory's
`item_count`) and the directory stack unchanged. -/
theorem c8_nameless_file_skipped :
    (∀ (info : ObjCtx) (p : Option DirFrame),
      (info.name = none ∨ info.name = some Scalar.null ∨
        info.name = some (Scalar.str "")) →
      _make_file_row info p = FileOut.skip) ∧
    (∀ (s : TState) (oc : ObjCtx) (rest : List Container),
      s.containers = Container.object oc :: rest →
      (oc.name = none ∨ oc.name = some Scalar.null ∨
        oc.name = some (Scalar.str "")) →
      isMetaHead rest oc = false →
      ∃ s' : TState, step s Event.endMap = some (s', []) ∧
        s'.arena = s.arena ∧ s'.dirStack = s.dirStack) := by
  have hskip : ∀ (info : ObjCtx) (p : Option DirFrame),
      (info.name = none ∨ info.name = some Scalar.null ∨
        info.name = some (Scalar.str "")) →
      _make_file_row info p = FileOut.skip := by
    intro info p h
    rcases h with h | h | h <;> simp [_make_file_row, h]
  refine ⟨hskip, ?_⟩
  intro s oc rest hc hn hhead
  cases rest with
  | nil =>
      refine ⟨⟨[], s.dirStack, s.arena⟩, ?_, rfl, rfl⟩
      simp [step, doEndMap, hc, hskip oc none hn]
  | cons c2 rest2 =>
      cases c2 with
      | object oc2 =>
          refine ⟨⟨Container.object oc2 :: rest2, s.dirStack, s.arena⟩, ?_, rfl, rfl⟩
          simp [step, doEndMap, hc, hskip oc none hn]
      | array ac =>
          by_cases hcl : ac.kind = ArrKind.unknown ∧ ac.index = 0
          · obtain ⟨hku, hidx0⟩ := hcl
            by_cases hne : dataNonempty oc = true
            · -- would classify dir: isMetaHead = false forces a frame
              have hfr : ∃ j, ac.frame = some j := by
                cases hfr2 : ac.frame with
                | some j => exact ⟨j, rfl⟩
                | none =>
                    exfalso
                    rw [isMetaHead] at hhead
                    simp [hku, hidx0, hne, hfr2] at hhead
              obtain ⟨j, hfrj⟩ := hfr
              refine ⟨⟨Container.array ⟨ArrKind.dir, ac.index + 1, ac.frame⟩ :: rest2,
                      s.dirStack, s.arena⟩, ?_, rfl, rfl⟩
              simp [step, doEndMap, hc, hku, hidx0, hne, hfrj,
                hskip oc (s.dirStack.head?.bind fun j => s.arena[j]?) hn]
            · have hne2 : dataNonempty oc = false := by
                rwa [Bool.not_eq_true] at hne
              refine ⟨⟨Container.array ⟨ArrKind.top, ac.index + 1, ac.frame⟩ :: rest2,
                      s.dirStack, s.arena⟩, ?_, rfl, rfl⟩
              simp [step, doEndMap, hc, hku, hidx0, hne2]
          · by_cases hk1 : ac.kind = ArrKind.dir
            · have hcc : ¬(ac.index = 0 ∧ ac.frame = none) := by
                intro hcon
                rw [isMetaHead] at hhead
                simp [hcl, hk1, hcon.1, hcon.2] at hhead
              refine ⟨⟨Container.array ⟨ArrKind.dir, ac.index + 1, ac.frame⟩ :: rest2,
                      s.dirStack, s.arena⟩, ?_, rfl, rfl⟩
              simp [step, doEndMap, hc, hcl, hk1, hcc,
                hskip oc (s.dirStack.head?.bind fun j => s.arena[j]?) hn]
            · refine ⟨⟨Container.array ⟨ac.kind, ac.index + 1, ac.frame⟩ :: rest2,
                      s.dirStack, s.arena⟩, ?_, rfl, rfl⟩
              simp [step, doEndMap, hc, hcl, hk1]

theorem c8_nameless_file_skipped_witness :
    _make_file_row ⟨none, none, none, none⟩ none = FileOut.skip :=
  c8_nameless_file_skipped.1 ⟨none, none, none, none⟩ none (Or.inl rfl)

/-- C9: a structural error from the token source after any event prefix
makes `stream_nodes` fail (it does not complete cleanly), the rows already
yielded before the failure point are exactly those the prefix produces —
unchanged — and nothing of the remainder of the stream contributes any
row: on the full stream the same rows would merely be followed by the
remainder's rows. -/
theorem c9_error_truncation (pre post : List Event) :
    (stream_nodes ⟨pre, true⟩).2 = false ∧
    (stream_nodes ⟨pre, true⟩).1 = (stream_nodes ⟨pre, false⟩).1 ∧
    ((runAux initState pre).2.2 = true →
      (stream_nodes ⟨pre ++ post, false⟩).1 =
        (stream_nodes ⟨pre, true⟩).1 ++ (runAux (runAux initState pre).1 post).2.1) := by
  refine ⟨?_, rfl, ?_⟩
  · simp [stream_nodes]
  · intro h
    simp only [stream_nodes]
    rw [runAux_append pre post initState h]

theorem c9_error_truncation_witness :
    (stream_nodes ⟨[Event.startMap], true⟩).2 = false ∧
    (stream_nodes ⟨[Event.startMap], true⟩).1 =
      (stream_nodes ⟨[Event.startMap], false⟩).1 ∧
    (stream_nodes ⟨[Event.startMap] ++ [Event.endMap], false⟩).1 =
      (stream_nodes ⟨[Event.startMap], true⟩).1 ++
        (runAux (runAux initState [Event.startMap]).1 [Event.endMap]).2.1 := by
  have h := c9_error_truncation [Event.startMap] [Event.endMap]
  exact ⟨h.1, h.2.1, h.2.2 (by decide)⟩

/-- C10: when an object closes inside an array classified `top` (or one
that this very object classifies `top` because it is the first element and
carries none of the recognized keys), `stream_nodes` emits no row for it —
whatever its `name` is — and neither the arena (so no `item_count`) nor
the directory stack changes; only the array's element index advances. -/
theorem c10_top_array_object_skipped (s : TState) (oc : ObjCtx) (ac : ArrCtx)
    (rest : List Container)
    (hc : s.containers = Container.object oc :: Container.array ac :: rest)
    (htop : ac.kind = ArrKind.top ∨
      (ac.kind = ArrKind.unknown ∧ ac.index = 0 ∧ dataNonempty oc = false)) :
    step s Event.endMap =
      some (⟨Container.array ⟨ArrKind.top, ac.index + 1, ac.frame⟩ :: rest,
             s.dirStack, s.arena⟩, []) := by
  rcases htop with hk | ⟨hku, hidx, hne⟩
  · simp [step, doEndMap, hc, hk]
  · simp [step, doEndMap, hc, hku, hidx, hne]

theorem c10_top_array_object_skipped_witness :
    step ⟨[Container.object ⟨some (Scalar.str "named"), none, none, none⟩,
           Container.array ⟨ArrKind.top, 1, none⟩], [], []⟩ Event.endMap =
      some (⟨[Container.array ⟨ArrKind.top, 2, none⟩], [], []⟩, []) :=
  c10_top_array_object_skipped _ _ _ _ rfl (Or.inl rfl)
